import Mathlib

/- Shallow embedding of the ETL pipeline in src/etl.py: value normalization
   (clean_val, clean_num), event reconstruction (forward fill over the raw
   rows), the streaming aggregation over reconstructed events, metric
   finalization, and the load stage with its upsert contract.

   Modelling conventions: a table cell is an Option String, with none
   standing for a missing (NaN) cell; numeric cells hold their decimal
   string form and Python float arithmetic is modelled by exact rational
   arithmetic.  The wall-clock date used as the date-parse fallback is an
   explicit parameter named today.  The persistence layer is modelled as
   in-memory association lists; the etl_runs row that the source inserts as
   running and then updates once is modelled by its final state. -/

namespace Etl

def NULL_VALUES : List String :=
  ["<Other>", "NULL", "null", "(not set)", "not set", "", "NaN"]

/-- Whitespace strip, the Python str.strip() on both ends. -/
def pyStrip (s : String) : String :=
  ⟨((s.data.dropWhile Char.isWhitespace).reverse.dropWhile Char.isWhitespace).reverse⟩

/-- First n characters of a string, the Python slice s[:n]. -/
def pyTakeChars (n : Nat) (s : String) : String := ⟨s.data.take n⟩

/-- Model of clean_val: a missing cell, or a null-marker string after
    stripping, is absent. -/
def clean_val (v : Option String) : Option String :=
  match v with
  | none => none
  | some s =>
      let t := pyStrip s
      if t ∈ NULL_VALUES ∨ t = "nan" then none else some t

def digitVal (c : Char) : Nat := c.toNat - 48

def digitsToNat (l : List Char) : Nat :=
  l.foldl (fun a c => a * 10 + digitVal c) 0

def allDigits (l : List Char) : Bool := l.all Char.isDigit

/-- Decimal parser modelling the successful cases of Python float applied to
    the cleaned cell strings; exponent and special forms are not modelled. -/
def parseDecimal (s : String) : Option ℚ :=
  let go : List Char → Option ℚ := fun cs =>
    match cs.splitOn '.' with
    | [a] => if a ≠ [] ∧ allDigits a then some (digitsToNat a) else none
    | [a, b] =>
        if (a ≠ [] ∨ b ≠ []) ∧ allDigits a ∧ allDigits b then
          some ((digitsToNat a : ℚ) + (digitsToNat b : ℚ) / ((10 : ℚ) ^ b.length))
        else none
    | _ => none
  match s.data with
  | '-' :: cs => (go cs).map (fun q => -q)
  | '+' :: cs => go cs
  | cs => go cs

/-- Model of clean_num: clean_val, then numeric parse, absent on failure. -/
def clean_num (v : Option String) : Option ℚ :=
  match clean_val v with
  | none => none
  | some s => parseDecimal s

/-- Model of the Python int cast applied to a string: an optional sign
    followed by digits; anything else raises, modelled as none. -/
def pyInt (s : String) : Option Int :=
  match s.data with
  | '-' :: cs => if cs ≠ [] ∧ allDigits cs then some (-(digitsToNat cs : Int)) else none
  | '+' :: cs => if cs ≠ [] ∧ allDigits cs then some ((digitsToNat cs : Int)) else none
  | cs => if cs ≠ [] ∧ allDigits cs then some ((digitsToNat cs : Int)) else none

def isLeap (y : Nat) : Bool := (y % 4 == 0 && y % 100 != 0) || y % 400 == 0

def daysInMonth (y m : Nat) : Nat :=
  if m = 2 then (if isLeap y then 29 else 28)
  else if m = 4 ∨ m = 6 ∨ m = 9 ∨ m = 11 then 30
  else 31

def validYmd (s : String) : Bool :=
  let y := digitsToNat (s.data.take 4)
  let m := digitsToNat ((s.data.drop 4).take 2)
  let d := digitsToNat ((s.data.drop 6).take 2)
  decide (1 ≤ y ∧ 1 ≤ m ∧ m ≤ 12 ∧ 1 ≤ d ∧ d ≤ daysInMonth y m)

/-- Model of the date-parsing block (source lines 169-182): an 8 character
    digit string that forms a valid calendar date becomes the YYYY-MM-DD date
    key; anything else, including a parse error, falls back to the current
    wall-clock date passed in as today. -/
def parseDateKey (today : String) (dv : Option String) : String :=
  match dv with
  | none => today
  | some s =>
      if s.length = 8 then
        if allDigits s.data && validYmd s then
          ⟨s.data.take 4 ++ '-' :: (s.data.drop 4).take 2 ++ '-' :: (s.data.drop 6).take 2⟩
        else today
      else today

/-- One raw GA4 row: the flat columns the transform reads.  A none cell is a
    missing (NaN) value. -/
structure RawRow where
  event_name : Option String := none
  event_timestamp : Option String := none
  event_date : Option String := none
  user_pseudo_id : Option String := none
  traffic_source : Option String := none
  traffic_medium : Option String := none
  device_category : Option String := none
  browser : Option String := none
  operating_system : Option String := none
  country : Option String := none
  city : Option String := none
  transaction_id : Option String := none
  purchase_revenue : Option String := none
  item_id : Option String := none
  item_name : Option String := none
  item_category : Option String := none
  item_price : Option String := none
  item_quantity : Option String := none
  item_revenue : Option String := none
deriving DecidableEq

/-- Forward fill of event_name, user_pseudo_id and event_timestamp (source
    lines 144-146): a missing cell takes the most recent earlier value. -/
def ffillGo : Option String → Option String → Option String → List RawRow → List RawRow
  | _, _, _, [] => []
  | en, uid, ts, r :: rs =>
      let en2 := match r.event_name with | some v => some v | none => en
      let uid2 := match r.user_pseudo_id with | some v => some v | none => uid
      let ts2 := match r.event_timestamp with | some v => some v | none => ts
      { r with event_name := en2, user_pseudo_id := uid2, event_timestamp := ts2 }
        :: ffillGo en2 uid2 ts2 rs

def ffillRows (rows : List RawRow) : List RawRow := ffillGo none none none rows

def cleanName (r : RawRow) : String := (clean_val r.event_name).getD "unknown"

def userOf (r : RawRow) : Option String := clean_val r.user_pseudo_id

def dateKeyOf (today : String) (r : RawRow) : String := parseDateKey today r.event_date

def sourceOf (r : RawRow) : String := (clean_val r.traffic_source).getD "(none)"

def mediumOf (r : RawRow) : String := (clean_val r.traffic_medium).getD "(none)"

def txOf (r : RawRow) : Option String := clean_val r.transaction_id

def prevOf (r : RawRow) : Option ℚ := clean_num r.purchase_revenue

def itemIdOf (r : RawRow) : Option String := clean_val r.item_id

def irevOf (r : RawRow) : Option ℚ := clean_num r.item_revenue

def qtyStrOf (r : RawRow) : String := (clean_val r.item_quantity).getD "1"

/-- Session id derived as user id plus the first ten characters of the raw
    timestamp value (source line 208); a missing timestamp prints as nan. -/
def sessionIdOf (r : RawRow) : String :=
  ((userOf r).getD "") ++ "_" ++ pyTakeChars 10 (r.event_timestamp.getD "nan")

/-- One stored raw event (the dict built at source lines 211-233).  The
    source casts the numeric timestamp with int(); the model keeps the raw
    cell value. -/
structure Event where
  event_name : String
  event_timestamp : Option String
  event_date : String
  user_pseudo_id : String
  session_id : String
  country : String
  city : String
  device_category : String
  browser : String
  operating_system : String
  traffic_source : String
  traffic_medium : String
  item_id : Option String
  item_name : Option String
  item_category : Option String
  item_revenue : Option ℚ
  item_quantity : Int
  transaction_id : Option String
  transaction_revenue : Option ℚ
  page_location : Option String
  page_title : Option String
deriving DecidableEq

def mkEvent (today : String) (r : RawRow) : Event :=
  { event_name := cleanName r
    event_timestamp := r.event_timestamp
    event_date := dateKeyOf today r
    user_pseudo_id := (userOf r).getD ""
    session_id := sessionIdOf r
    country := (clean_val r.country).getD "(none)"
    city := (clean_val r.city).getD "(none)"
    device_category := (clean_val r.device_category).getD "(none)"
    browser := (clean_val r.browser).getD "(none)"
    operating_system := (clean_val r.operating_system).getD "(none)"
    traffic_source := sourceOf r
    traffic_medium := mediumOf r
    item_id := itemIdOf r
    item_name := clean_val r.item_name
    item_category := clean_val r.item_category
    item_revenue := irevOf r
    item_quantity := (pyInt (qtyStrOf r)).getD 0
    transaction_id := txOf r
    transaction_revenue := prevOf r
    page_location := none
    page_title := none }

/-- Daily accumulator (source lines 237-249); the Python sets are modelled
    as duplicate-free lists grown by insertIfAbsent. -/
structure DailyAcc where
  metric_date : String
  sessions : List String
  users : List String
  page_views : Nat
  revenue : ℚ
  transactions : List String
  purchases : Nat
  view_items : Nat
  add_carts : Nat
  checkouts : Nat
deriving DecidableEq

structure TrafficAcc where
  metric_date : String
  source : String
  medium : String
  sessions : List String
  users : List String
  page_views : Nat
  transactions : Nat
  revenue : ℚ
deriving DecidableEq

structure ProductAcc where
  metric_date : String
  item_id : String
  item_name : Option String
  item_category : Option String
  views : Nat
  add_to_carts : Nat
  purchases : Nat
  revenue : ℚ
  quantity_sold : Int
deriving DecidableEq

def insertIfAbsent (x : String) (s : List String) : List String :=
  if x ∈ s then s else s ++ [x]

def dailyInit (dk : String) : DailyAcc := ⟨dk, [], [], 0, 0, [], 0, 0, 0, 0⟩

def trafficInit (dk src med : String) : TrafficAcc := ⟨dk, src, med, [], [], 0, 0, 0⟩

def productInit (dk iid : String) (iname icat : Option String) : ProductAcc :=
  ⟨dk, iid, iname, icat, 0, 0, 0, 0, 0⟩

/-- Python truthiness guard on revenue additions: if v: acc += v, so a
    missing value and 0.0 both leave the accumulator unchanged. -/
def addTruthy (acc : ℚ) (v : Option ℚ) : ℚ :=
  match v with
  | some x => if x = 0 then acc else acc + x
  | none => acc

/-- Daily accumulator update for one emitted row (source lines 251-267). -/
def dailyApply (r : RawRow) (dm : DailyAcc) : DailyAcc :=
  { dm with
    users := insertIfAbsent ((userOf r).getD "") dm.users
    page_views := dm.page_views + (if cleanName r = "page_view" then 1 else 0)
    sessions := insertIfAbsent (sessionIdOf r) dm.sessions
    purchases := dm.purchases + (if cleanName r = "purchase" then 1 else 0)
    view_items := dm.view_items + (if cleanName r = "view_item" then 1 else 0)
    add_carts := dm.add_carts + (if cleanName r = "add_to_cart" then 1 else 0)
    checkouts := dm.checkouts + (if cleanName r = "begin_checkout" then 1 else 0)
    transactions :=
      match txOf r with
      | some t => insertIfAbsent t dm.transactions
      | none => dm.transactions
    revenue := addTruthy dm.revenue (prevOf r) }

/-- Traffic accumulator update for one emitted row (source lines 284-292). -/
def trafficApply (r : RawRow) (tm : TrafficAcc) : TrafficAcc :=
  { tm with
    users := insertIfAbsent ((userOf r).getD "") tm.users
    page_views := tm.page_views + (if cleanName r = "page_view" then 1 else 0)
    sessions := insertIfAbsent (sessionIdOf r) tm.sessions
    transactions := tm.transactions + (if cleanName r = "purchase" then 1 else 0)
    revenue := addTruthy tm.revenue (prevOf r) }

/-- Product accumulator update for one emitted row carrying an item id
    (source lines 311-320).  The quantity is the int cast of items.quantity;
    in a run that did not abort the cast succeeded, so getD 0 is exact. -/
def productApply (r : RawRow) (pm : ProductAcc) : ProductAcc :=
  { pm with
    views := pm.views + (if cleanName r = "view_item" then 1 else 0)
    add_to_carts := pm.add_to_carts + (if cleanName r = "add_to_cart" then 1 else 0)
    purchases := pm.purchases + (if cleanName r = "purchase" then 1 else 0)
    revenue := if cleanName r = "purchase" then addTruthy pm.revenue (irevOf r) else pm.revenue
    quantity_sold :=
      if cleanName r = "purchase" then pm.quantity_sold + (pyInt (qtyStrOf r)).getD 0
      else pm.quantity_sold }

def lookupA {κ α : Type} [DecidableEq κ] (k : κ) : List (κ × α) → Option α
  | [] => none
  | (k2, a) :: t => if k2 = k then some a else lookupA k t

/-- Python dict upsert: create the entry from init if the key is new, then
    apply the in-place update; insertion order of new keys is kept. -/
def updAssoc {κ α : Type} [DecidableEq κ] (k : κ) (init : α) (f : α → α) :
    List (κ × α) → List (κ × α)
  | [] => [(k, f init)]
  | (k2, a) :: t => if k2 = k then (k2, f a) :: t else (k2, a) :: updAssoc k init f t

structure TState where
  events : List Event
  daily : List (String × DailyAcc)
  traffic : List (String × TrafficAcc)
  product : List (String × ProductAcc)
deriving DecidableEq

def initState : TState := ⟨[], [], [], []⟩

/-- State change a processed row makes: append the raw event and update the
    daily, traffic and (when an item id is present) product accumulators at
    their dict keys. -/
def stateApply (today : String) (r : RawRow) (st : TState) : TState :=
  let dk := dateKeyOf today r
  let st1 : TState := { st with events := st.events ++ [mkEvent today r] }
  let st2 : TState :=
    { st1 with daily := updAssoc dk (dailyInit dk) (dailyApply r) st1.daily }
  let st3 : TState :=
    { st2 with
      traffic :=
        updAssoc (dk ++ "|" ++ sourceOf r ++ "|" ++ mediumOf r)
          (trafficInit dk (sourceOf r) (mediumOf r)) (trafficApply r) st2.traffic }
  match itemIdOf r with
  | none => st3
  | some i =>
      { st3 with
        product :=
          updAssoc (dk ++ "|" ++ i)
            (productInit dk i (clean_val r.item_name) (clean_val r.item_category))
            (productApply r) st3.product }

/-- One iteration of the event loop (source lines 159-320).  A row whose
    normalized user id is absent is skipped; the bare int() cast of
    items.quantity is the one per-row parse that raises and aborts the
    pass. -/
def processRow (today : String) (st : TState) (r : RawRow) : Except String TState :=
  match userOf r with
  | none => .ok st
  | some _ =>
      match pyInt (qtyStrOf r) with
      | none => .error ("invalid literal for int() with base 10: " ++ qtyStrOf r)
      | some _ => .ok (stateApply today r st)

/-- Finalized daily metric record (source lines 327-342). -/
structure DailyRecord where
  metric_date : String
  sessions : Nat
  total_users : Nat
  page_views : Nat
  total_revenue : ℚ
  transactions : Nat
  items_sold : Nat
  average_order_value : ℚ
  conversion_rate : ℚ
  bounce_rate : ℚ
  unique_purchases : Nat
  view_item_events : Nat
  add_to_cart_events : Nat
  begin_checkout_events : Nat
deriving DecidableEq

def finalizeDaily (dm : DailyAcc) : DailyRecord :=
  let sessions := dm.sessions.length
  let transactions := dm.transactions.length
  { metric_date := dm.metric_date
    sessions := sessions
    total_users := dm.users.length
    page_views := dm.page_views
    total_revenue := dm.revenue
    transactions := dm.purchases
    items_sold := 0
    average_order_value := if transactions > 0 then dm.revenue / (transactions : ℚ) else 0
    conversion_rate :=
      if sessions > 0 then (dm.purchases : ℚ) / (sessions : ℚ) * 100 else 0
    bounce_rate := 0
    unique_purchases := transactions
    view_item_events := dm.view_items
    add_to_cart_events := dm.add_carts
    begin_checkout_events := dm.checkouts }

/-- Finalized traffic-source metric record (source lines 347-358). -/
structure TrafficRecord where
  metric_date : String
  source : String
  medium : String
  campaign : Option String
  sessions : Nat
  users : Nat
  page_views : Nat
  transactions : Nat
  revenue : ℚ
  conversion_rate : ℚ
deriving DecidableEq

def finalizeTraffic (tm : TrafficAcc) : TrafficRecord :=
  let sessions := tm.sessions.length
  { metric_date := tm.metric_date
    source := tm.source
    medium := tm.medium
    campaign := none
    sessions := sessions
    users := tm.users.length
    page_views := tm.page_views
    transactions := tm.transactions
    revenue := tm.revenue
    conversion_rate :=
      if sessions > 0 then (tm.transactions : ℚ) / (sessions : ℚ) * 100 else 0 }

/-- Finalized product metric record (source lines 362-374). -/
structure ProductRecord where
  metric_date : String
  item_id : String
  item_name : Option String
  item_category : Option String
  views : Nat
  add_to_carts : Nat
  checkouts : Nat
  purchases : Nat
  revenue : ℚ
  quantity_sold : Int
  refund_amount : ℚ
deriving DecidableEq

def finalizeProduct (pm : ProductAcc) : ProductRecord :=
  { metric_date := pm.metric_date
    item_id := pm.item_id
    item_name := pm.item_name
    item_category := pm.item_category
    views := pm.views
    add_to_carts := pm.add_to_carts
    checkouts := 0
    purchases := pm.purchases
    revenue := pm.revenue
    quantity_sold := pm.quantity_sold
    refund_amount := 0 }

structure TransformResult where
  events : List Event
  daily_metrics : List DailyRecord
  traffic_metrics : List TrafficRecord
  product_metrics : List ProductRecord
deriving DecidableEq

def finalizeState (st : TState) : TransformResult :=
  ⟨st.events,
   st.daily.map (fun p => finalizeDaily p.2),
   st.traffic.map (fun p => finalizeTraffic p.2),
   st.product.map (fun p => finalizeProduct p.2)⟩

/-- The filled rows kept by the notna restriction of source line 150. -/
def eventRows (rows : List RawRow) : List RawRow :=
  (ffillRows rows).filter (fun r => r.event_name.isSome)

/-- The transform pass on the chosen table: forward fill, restriction to
    rows with a present event name, the streaming aggregation, and the
    conversion of accumulators to flat records. -/
def transformRows (today : String) (rows : List RawRow) : Except String TransformResult :=
  ((eventRows rows).foldlM (processRow today) initState).map finalizeState

def emptyResult : TransformResult := ⟨[], [], [], []⟩

/-- transform_data: pick the first non-empty table; with no usable table the
    source logs an error but returns the empty result sets (lines 124-138). -/
def transform_data (today : String) (dfs : List (String × List RawRow)) :
    Except String TransformResult :=
  match dfs.find? (fun p => !p.2.isEmpty) with
  | none => .ok emptyResult
  | some p => transformRows today p.2

/-- SQL INSERT ... ON CONFLICT (key) DO UPDATE over an association-list
    table: insert the new record if the key is new, otherwise combine the
    stored row with the new record using merge. -/
def upsert {κ α : Type} [DecidableEq κ] (k : κ) (new : α) (merge : α → α → α) :
    List (κ × α) → List (κ × α)
  | [] => [(k, new)]
  | (k2, a) :: t => if k2 = k then (k2, merge a new) :: t else (k2, a) :: upsert k new merge t

def upFold {κ α : Type} [DecidableEq κ] (key : α → κ) (merge : α → α → α)
    (t : List (κ × α)) (L : List α) : List (κ × α) :=
  L.foldl (fun acc r => upsert (key r) r merge acc) t

/-- Columns the daily DO UPDATE overwrites (source lines 571-579): sessions,
    total_users, page_views, total_revenue, transactions,
    average_order_value, conversion_rate; the remaining non-key columns keep
    the stored values. -/
def mergeDaily (old new : DailyRecord) : DailyRecord :=
  { old with
    sessions := new.sessions
    total_users := new.total_users
    page_views := new.page_views
    total_revenue := new.total_revenue
    transactions := new.transactions
    average_order_value := new.average_order_value
    conversion_rate := new.conversion_rate }

/-- Columns the traffic DO UPDATE overwrites (source lines 598-604). -/
def mergeTraffic (old new : TrafficRecord) : TrafficRecord :=
  { old with
    sessions := new.sessions
    users := new.users
    page_views := new.page_views
    transactions := new.transactions
    revenue := new.revenue
    conversion_rate := new.conversion_rate }

/-- Columns the product DO UPDATE overwrites (source lines 621-626). -/
def mergeProduct (old new : ProductRecord) : ProductRecord :=
  { old with
    views := new.views
    add_to_carts := new.add_to_carts
    purchases := new.purchases
    revenue := new.revenue
    quantity_sold := new.quantity_sold }

structure RunRecord where
  status : String
  rows_processed : Nat
  error_message : Option String
deriving DecidableEq

structure DB where
  raw_events : List Event
  daily : List (String × DailyRecord)
  traffic : List ((String × String × String) × TrafficRecord)
  product : List ((String × String) × ProductRecord)
  runs : List RunRecord
deriving DecidableEq

def dailyKey (d : DailyRecord) : String := d.metric_date

def trafficKey (t : TrafficRecord) : String × String × String :=
  (t.metric_date, t.source, t.medium)

def productKey (p : ProductRecord) : String × String := (p.metric_date, p.item_id)

/-- load_data (source lines 522-663): append the raw events, upsert the
    three record sets by natural key, and finish the run record.  The model
    has no persistence faults, so the run row inserted as running always
    reaches its completed state with the processed row count. -/
def load_data (data : TransformResult) (db : DB) : DB :=
  { raw_events := db.raw_events ++ data.events
    daily := upFold dailyKey mergeDaily db.daily data.daily_metrics
    traffic := upFold trafficKey mergeTraffic db.traffic data.traffic_metrics
    product := upFold productKey mergeProduct db.product data.product_metrics
    runs := db.runs ++ [⟨"completed", data.events.length, none⟩] }

structure RunResult where
  success : Bool
  events : Nat
  error : Option String
deriving DecidableEq

/-- run_etl (source lines 669-699): transform then load, converting an
    escaped transform exception into a failure result without touching the
    store (the run record is only created inside load_data). -/
def run_etl (today : String) (dfs : List (String × List RawRow)) (db : DB) :
    RunResult × DB :=
  match transform_data today dfs with
  | .error e => (⟨false, 0, some e⟩, db)
  | .ok data => (⟨true, data.events.length, none⟩, load_data data db)

/- Association-table lemmas: lookup, keys and the idempotence of repeated
   upserting used to settle the load-contract claims. -/
def keysOf {κ α : Type} (t : List (κ × α)) : List κ := t.map Prod.fst

/-- One lookup-level step of an upsert pass. -/
def mstep {κ α : Type} [DecidableEq κ] (key : α → κ) (merge : α → α → α) (k : κ)
    (o : Option α) (r : α) : Option α :=
  if key r = k then
    some (match o with | some a => merge a r | none => r)
  else o

def ustep {α : Type} (merge : α → α → α) (o : Option α) (r : α) : Option α :=
  some (match o with | some a => merge a r | none => r)

/- Transform-pass characterization: which rows are emitted, and what each
   accumulator holds in terms of the emitted rows. -/
/-- A filled row is emitted exactly when its event name cell is present
    (the notna restriction of source line 150) and its normalized user id is
    present (the skip at source line 166). -/
def emitB (r : RawRow) : Bool := r.event_name.isSome && (userOf r).isSome

def emittedRows (rows : List RawRow) : List RawRow := (ffillRows rows).filter emitB

def prContrib (r : RawRow) : ℚ := (prevOf r).getD 0

def pContrib (r : RawRow) : ℚ :=
  if cleanName r = "purchase" then (irevOf r).getD 0 else 0

def itemKeyOf (today : String) (r : RawRow) : Option String :=
  (itemIdOf r).map (fun i => dateKeyOf today r ++ "|" ++ i)

/-- Lookup-level step of the daily dict at key k. -/
def dstep (today k : String) (o : Option DailyAcc) (r : RawRow) : Option DailyAcc :=
  if (userOf r).isSome ∧ dateKeyOf today r = k then
    some (dailyApply r (o.getD (dailyInit k)))
  else o

/-- Unconditional lookup-level step once rows were filtered to key k. -/
def dapply1 (k : String) (o : Option DailyAcc) (r : RawRow) : Option DailyAcc :=
  some (dailyApply r (o.getD (dailyInit k)))

def dfold (a : DailyAcc) (r : RawRow) : DailyAcc := dailyApply r a

/-- Lookup-level step of the product dict at key pk. -/
def pstep (today pk : String) (o : Option ProductAcc) (r : RawRow) : Option ProductAcc :=
  if (userOf r).isSome ∧ itemKeyOf today r = some pk then
    some (productApply r (o.getD
      (productInit (dateKeyOf today r) ((itemIdOf r).getD "")
        (clean_val r.item_name) (clean_val r.item_category))))
  else o

def optRev (o : Option ProductAcc) : ℚ :=
  match o with
  | some pm => pm.revenue
  | none => 0

/-- Daily-dict structure the pass maintains: every entry is stored under its
    own metric date and the key list is duplicate free. -/
def dictInv0 (st : TState) : Prop :=
  (∀ p ∈ st.daily, p.1 = p.2.metric_date) ∧ (keysOf st.daily).Nodup

/-- Pipe-separator structure of the dict keys: daily keys are pipe free and
    every product key splits as a pipe-free date part, equal to the stored
    metric date, followed by the item id. -/
def prodInv (st : TState) : Prop :=
  (∀ p ∈ st.daily, '|' ∉ p.1.data) ∧
  (∀ p ∈ st.product, ∃ dk i, p.1 = dk ++ "|" ++ i ∧ p.2.metric_date = dk ∧ '|' ∉ dk.data) ∧
  (keysOf st.product).Nodup

/-- The emitted rows that share the daily grouping key k. -/
def dateRows (today : String) (rows : List RawRow) (k : String) : List RawRow :=
  (emittedRows rows).filter (fun r => decide (dateKeyOf today r = k))

def rowKeyOf (today : String) (r : RawRow) : Option String :=
  if (userOf r).isSome then itemKeyOf today r else none

/- Concrete data used by the claim witnesses and counterexamples. -/
def c4Row (tx rev : String) : RawRow :=
  { event_name := some "purchase", event_timestamp := some "1610668800000000",
    event_date := some "20210115", user_pseudo_id := some "u1",
    transaction_id := some tx, purchase_revenue := some rev }

def c3RowA : RawRow :=
  { event_name := some "page_view", event_timestamp := some "1610668800000000",
    event_date := some "20210115", user_pseudo_id := some "u1" }

def c3RowB : RawRow := { event_date := some "20210115" }

def c3RowC : RawRow := { event_date := some "20210115", user_pseudo_id := some "u2" }

def c1Old : DailyRecord :=
  { metric_date := "2021-01-15", sessions := 1, total_users := 1, page_views := 1,
    total_revenue := 5, transactions := 1, items_sold := 9, average_order_value := 5,
    conversion_rate := 10, bounce_rate := 7, unique_purchases := 5,
    view_item_events := 4, add_to_cart_events := 3, begin_checkout_events := 2 }

def c1New : DailyRecord :=
  { metric_date := "2021-01-15", sessions := 2, total_users := 2, page_views := 2,
    total_revenue := 8, transactions := 2, items_sold := 0, average_order_value := 4,
    conversion_rate := 20, bounce_rate := 0, unique_purchases := 7,
    view_item_events := 6, add_to_cart_events := 5, begin_checkout_events := 1 }

def c1T : TrafficRecord :=
  { metric_date := "2021-01-15", source := "google", medium := "cpc", campaign := none,
    sessions := 3, users := 3, page_views := 3, transactions := 1, revenue := 50,
    conversion_rate := 33 }

def c1TOld : TrafficRecord :=
  { metric_date := "2021-01-15", source := "google", medium := "cpc",
    campaign := some "camp", sessions := 1, users := 1, page_views := 1,
    transactions := 0, revenue := 0, conversion_rate := 0 }

def c1P : ProductRecord :=
  { metric_date := "2021-01-15", item_id := "i1", item_name := some "N",
    item_category := some "C", views := 1, add_to_carts := 1, checkouts := 0,
    purchases := 1, revenue := 10, quantity_sold := 1, refund_amount := 0 }

def c1POld : ProductRecord :=
  { metric_date := "2021-01-15", item_id := "i1", item_name := some "OldN",
    item_category := some "OldC", views := 9, add_to_carts := 9, checkouts := 9,
    purchases := 9, revenue := 99, quantity_sold := 9, refund_amount := 9 }

def c1DB : DB := ⟨[], [("2021-01-15", c1Old)], [], [], []⟩

def c1Data : TransformResult := ⟨[], [c1New], [], []⟩

def c1wDB : DB :=
  ⟨[], [("2021-01-15", c1Old)], [(("2021-01-15", "google", "cpc"), c1TOld)],
   [(("2021-01-15", "i1"), c1POld)], []⟩

def c2Ev : Event :=
  mkEvent "2021-02-01" { event_name := some "page_view", user_pseudo_id := some "u1" }

def c2Data : TransformResult := ⟨[c2Ev], [], [], []⟩

def c2DB : DB := ⟨[], [], [], [], []⟩

def c6Row : RawRow :=
  { event_name := some "purchase", event_timestamp := some "161",
    event_date := some "20210115", user_pseudo_id := some "u1",
    transaction_id := some "t1", purchase_revenue := some "10.0",
    item_id := some "i1", item_revenue := some "7.0" }

def c6wRow : RawRow :=
  { event_name := some "purchase", event_timestamp := some "161",
    event_date := some "20210115", user_pseudo_id := some "u1",
    transaction_id := some "t1", purchase_revenue := some "10.0",
    item_id := some "i1", item_revenue := some "10.0" }

def c6wRes : TransformResult :=
  ((transformRows "2021-02-01" [c6wRow]).toOption).getD ⟨[], [], [], []⟩

def c6wD : DailyRecord := c6wRes.daily_metrics.headD (finalizeDaily (dailyInit ""))

def c7Row : RawRow :=
  { event_name := some "page_view", event_timestamp := some "161",
    event_date := some "20210115", user_pseudo_id := some "u1",
    item_quantity := some "2.5" }

def c7RowRev : RawRow :=
  { event_name := some "page_view", event_timestamp := some "161",
    event_date := some "20210115", user_pseudo_id := some "u1",
    purchase_revenue := some "abc" }

def c8DB : DB := ⟨[], [], [], [], []⟩

def c8wDB : DB := ⟨[], [], [], [], [⟨"completed", 5, none⟩]⟩

def c9Res : TransformResult :=
  ((transformRows "2021-02-01" [c4Row "t1" "10.00"]).toOption).getD ⟨[], [], [], []⟩

def c9d : DailyRecord := c9Res.daily_metrics.headD (finalizeDaily (dailyInit ""))

def c10Dfs : List (String × List RawRow) := [("events.csv", [c4Row "t1" "10.00"])]

def c10Res : TransformResult :=
  ((transform_data "2021-02-01" c10Dfs).toOption).getD ⟨[], [], [], []⟩

theorem lookupA_upsert {κ α : Type} [DecidableEq κ] (k : κ) (r : α) (merge : α → α → α)
    (t : List (κ × α)) (k2 : κ) :
    lookupA k2 (upsert k r merge t) =
      if k2 = k then
        (match lookupA k t with
         | some a => some (merge a r)
         | none => some r)
      else lookupA k2 t := by
  induction t with
  | nil =>
      by_cases h : k2 = k
      · subst h; simp [upsert, lookupA]
      · have h2 : ¬ k = k2 := fun hh => h hh.symm
        simp [upsert, lookupA, h, h2]
  | cons p t ih =>
      obtain ⟨kp, a⟩ := p
      by_cases hp : kp = k <;> by_cases hq : kp = k2 <;> by_cases hr : k2 = k <;>
        simp_all [upsert, lookupA]

theorem keysOf_cons {κ α : Type} (p : κ × α) (t : List (κ × α)) :
    keysOf (p :: t) = p.1 :: keysOf t := rfl

theorem keysOf_upsert {κ α : Type} [DecidableEq κ] (k : κ) (r : α) (merge : α → α → α)
    (t : List (κ × α)) :
    keysOf (upsert k r merge t) =
      if k ∈ keysOf t then keysOf t else keysOf t ++ [k] := by
  induction t with
  | nil => simp [upsert, keysOf]
  | cons p t ih =>
      obtain ⟨kp, a⟩ := p
      by_cases hp : kp = k
      · subst hp; simp [upsert, keysOf]
      · have hk : ¬ k = kp := fun hh => hp hh.symm
        simp only [upsert, if_neg hp, keysOf_cons, ih]
        by_cases hm : k ∈ keysOf t
        · simp [hm, hk]
        · simp [hm, hk]

theorem nodup_keysOf_upsert {κ α : Type} [DecidableEq κ] (k : κ) (r : α)
    (merge : α → α → α) (t : List (κ × α)) (h : (keysOf t).Nodup) :
    (keysOf (upsert k r merge t)).Nodup := by
  rw [keysOf_upsert]
  by_cases hm : k ∈ keysOf t
  · simpa [hm] using h
  · simp only [hm, if_false]
    simpa [List.nodup_append] using ⟨h, hm⟩

theorem lookupA_eq_none_of_not_mem {κ α : Type} [DecidableEq κ] (k : κ)
    (t : List (κ × α)) (h : k ∉ keysOf t) : lookupA k t = none := by
  induction t with
  | nil => rfl
  | cons p t ih =>
      obtain ⟨kp, a⟩ := p
      have h1 : kp ≠ k := by
        intro hh; exact h (by simp [keysOf, hh])
      have h2 : k ∉ keysOf t := fun hh => h (by simp [keysOf] at hh ⊢; exact Or.inr hh)
      simp [lookupA, h1, ih h2]

theorem lookupA_of_mem {κ α : Type} [DecidableEq κ] (k : κ) (a : α) :
    ∀ (t : List (κ × α)), (keysOf t).Nodup → (k, a) ∈ t → lookupA k t = some a := by
  intro t
  induction t with
  | nil => intro _ hm; cases hm
  | cons p t ih =>
      intro hnd hm
      obtain ⟨kp, b⟩ := p
      rw [keysOf_cons, List.nodup_cons] at hnd
      rcases List.mem_cons.mp hm with h | h
      · cases h; simp [lookupA]
      · have hk : kp ≠ k := by
          intro hh; subst hh
          exact hnd.1 (by simpa [keysOf] using List.mem_map_of_mem Prod.fst h)
        simp [lookupA, hk, ih hnd.2 h]

theorem assocExt {κ α : Type} [DecidableEq κ] :
    ∀ (t1 t2 : List (κ × α)), (keysOf t1).Nodup → keysOf t1 = keysOf t2 →
      (∀ k, lookupA k t1 = lookupA k t2) → t1 = t2 := by
  intro t1
  induction t1 with
  | nil =>
      intro t2 _ hkeys _
      cases t2 with
      | nil => rfl
      | cons p t2 => simp [keysOf] at hkeys
  | cons p t1 ih =>
      intro t2 hnd hkeys hlook
      obtain ⟨k, a⟩ := p
      cases t2 with
      | nil => simp [keysOf] at hkeys
      | cons q t2 =>
          obtain ⟨k2, b⟩ := q
          rw [keysOf_cons, keysOf_cons] at hkeys
          injection hkeys with hkk htl
          subst hkk
          rw [keysOf_cons, List.nodup_cons] at hnd
          have hab : a = b := by
            have := hlook k
            simpa [lookupA] using this
          subst hab
          have hknot : k ∉ keysOf t1 := hnd.1
          have hknot2 : k ∉ keysOf t2 := htl ▸ hknot
          have htail : t1 = t2 := by
            apply ih t2 hnd.2 htl
            intro k3
            by_cases h : k3 = k
            · subst h
              rw [lookupA_eq_none_of_not_mem _ _ hknot,
                lookupA_eq_none_of_not_mem _ _ hknot2]
            · have := hlook k3
              have hne : k ≠ k3 := fun hh => h hh.symm
              simpa [lookupA, hne] using this
          rw [htail]

theorem lookupA_upFold {κ α : Type} [DecidableEq κ] (key : α → κ) (merge : α → α → α)
    (k : κ) : ∀ (L : List α) (t : List (κ × α)),
    lookupA k (upFold key merge t L) = L.foldl (mstep key merge k) (lookupA k t) := by
  intro L
  induction L with
  | nil => intro t; rfl
  | cons r L ih =>
      intro t
      have hstep : lookupA k (upsert (key r) r merge t) = mstep key merge k (lookupA k t) r := by
        rw [lookupA_upsert]
        by_cases h : k = key r
        · subst h
          rw [if_pos rfl]
          simp only [mstep, if_pos rfl]
          cases lookupA (key r) t <;> rfl
        · have h2 : ¬ key r = k := fun hh => h hh.symm
          simp [mstep, h, h2]
      show lookupA k (upFold key merge (upsert (key r) r merge t) L) = _
      rw [ih, hstep]
      rfl

theorem foldl_mstep_eq_filter {κ α : Type} [DecidableEq κ] (key : α → κ)
    (merge : α → α → α) (k : κ) :
    ∀ (L : List α) (o : Option α),
      L.foldl (mstep key merge k) o =
        (L.filter (fun r => decide (key r = k))).foldl (ustep merge) o := by
  intro L
  induction L with
  | nil => intro o; rfl
  | cons r L ih =>
      intro o
      by_cases h : key r = k
      · simp [List.foldl_cons, List.filter_cons, h, mstep, ustep, ih]
      · simp [List.foldl_cons, List.filter_cons, h, mstep, ih]

theorem foldl_ustep_some {α : Type} (merge : α → α → α) :
    ∀ (L : List α) (b : α), L.foldl (ustep merge) (some b) = some (L.foldl merge b) := by
  intro L
  induction L with
  | nil => intro b; rfl
  | cons r L ih => intro b; simp [List.foldl_cons, ustep, ih]

theorem foldl_merge_concat {α : Type} (merge : α → α → α)
    (h1 : ∀ a b c, merge (merge a b) c = merge a c) :
    ∀ (L : List α) (b r : α), (L ++ [r]).foldl merge b = merge b r := by
  intro L
  induction L with
  | nil => intro b r; rfl
  | cons x L ih =>
      intro b r
      rw [List.cons_append, List.foldl_cons, ih]
      exact h1 b x r

theorem foldl_ustep_idem {α : Type} (merge : α → α → α)
    (h1 : ∀ a b c, merge (merge a b) c = merge a c) (h2 : ∀ a, merge a a = a)
    (L : List α) (o : Option α) :
    L.foldl (ustep merge) (L.foldl (ustep merge) o) = L.foldl (ustep merge) o := by
  rcases List.eq_nil_or_concat L with rfl | ⟨L2, r, rfl⟩
  · rfl
  · simp only [List.concat_eq_append]
    have hfst : (L2 ++ [r]).foldl (ustep merge) o =
        ustep merge (L2.foldl (ustep merge) o) r := by
      rw [List.foldl_append]; rfl
    rcases ho : L2.foldl (ustep merge) o with _ | a
    · have ha1 : (L2 ++ [r]).foldl (ustep merge) o = some r := by
        rw [hfst, ho]; rfl
      rw [ha1, foldl_ustep_some, foldl_merge_concat merge h1, h2, ← ha1]
    · have ha1 : (L2 ++ [r]).foldl (ustep merge) o = some (merge a r) := by
        rw [hfst, ho]; rfl
      rw [ha1, foldl_ustep_some, foldl_merge_concat merge h1, h1, ← ha1]

theorem mem_keysOf_upsert {κ α : Type} [DecidableEq κ] (k k2 : κ) (r : α)
    (merge : α → α → α) (t : List (κ × α)) (h : k2 ∈ keysOf t) :
    k2 ∈ keysOf (upsert k r merge t) := by
  rw [keysOf_upsert]
  by_cases hm : k ∈ keysOf t <;> simp [hm, h]

theorem self_mem_keysOf_upsert {κ α : Type} [DecidableEq κ] (k : κ) (r : α)
    (merge : α → α → α) (t : List (κ × α)) : k ∈ keysOf (upsert k r merge t) := by
  rw [keysOf_upsert]
  by_cases hm : k ∈ keysOf t <;> simp [hm]

theorem mem_keysOf_upFold {κ α : Type} [DecidableEq κ] (key : α → κ)
    (merge : α → α → α) (k : κ) :
    ∀ (L : List α) (t : List (κ × α)), k ∈ keysOf t → k ∈ keysOf (upFold key merge t L) := by
  intro L
  induction L with
  | nil => intro t h; exact h
  | cons r L ih =>
      intro t h
      exact ih _ (mem_keysOf_upsert _ _ _ _ _ h)

theorem keysOf_upFold_of_mem {κ α : Type} [DecidableEq κ] (key : α → κ)
    (merge : α → α → α) :
    ∀ (L : List α) (t : List (κ × α)) (r : α), r ∈ L →
      key r ∈ keysOf (upFold key merge t L) := by
  intro L
  induction L with
  | nil => intro t r h; cases h
  | cons x L ih =>
      intro t r h
      rcases List.mem_cons.mp h with h | h
      · subst h
        show key r ∈ keysOf (upFold key merge (upsert (key r) r merge t) L)
        exact mem_keysOf_upFold _ _ _ _ _ (self_mem_keysOf_upsert _ _ _ _)
      · exact ih _ _ h

theorem keysOf_upFold_of_all_mem {κ α : Type} [DecidableEq κ] (key : α → κ)
    (merge : α → α → α) :
    ∀ (L : List α) (t : List (κ × α)), (∀ r ∈ L, key r ∈ keysOf t) →
      keysOf (upFold key merge t L) = keysOf t := by
  intro L
  induction L with
  | nil => intro t _; rfl
  | cons r L ih =>
      intro t h
      have hk : keysOf (upsert (key r) r merge t) = keysOf t := by
        rw [keysOf_upsert]; simp [h r (by simp)]
      have : ∀ x ∈ L, key x ∈ keysOf (upsert (key r) r merge t) := by
        intro x hx; rw [hk]; exact h x (by simp [hx])
      show keysOf (upFold key merge (upsert (key r) r merge t) L) = _
      rw [ih _ this, hk]

theorem nodup_keysOf_upFold {κ α : Type} [DecidableEq κ] (key : α → κ)
    (merge : α → α → α) :
    ∀ (L : List α) (t : List (κ × α)), (keysOf t).Nodup →
      (keysOf (upFold key merge t L)).Nodup := by
  intro L
  induction L with
  | nil => intro t h; exact h
  | cons r L ih =>
      intro t h
      exact ih _ (nodup_keysOf_upsert _ _ _ _ h)

/-- Running an identical upsert pass a second time does not change the
    table, provided the merge forgets intermediate values and is reflexive
    and the starting table has no duplicate keys. -/
theorem upFold_idem {κ α : Type} [DecidableEq κ] (key : α → κ) (merge : α → α → α)
    (h1 : ∀ a b c, merge (merge a b) c = merge a c) (h2 : ∀ a, merge a a = a)
    (t : List (κ × α)) (L : List α) (hnd : (keysOf t).Nodup) :
    upFold key merge (upFold key merge t L) L = upFold key merge t L := by
  apply assocExt
  · exact nodup_keysOf_upFold _ _ _ _ (nodup_keysOf_upFold _ _ _ _ hnd)
  · apply keysOf_upFold_of_all_mem
    intro r hr
    exact keysOf_upFold_of_mem _ _ _ _ _ hr
  · intro k
    rw [lookupA_upFold, lookupA_upFold, foldl_mstep_eq_filter, foldl_mstep_eq_filter,
      foldl_ustep_idem merge h1 h2]

theorem mergeDaily_assoc (a b c : DailyRecord) :
    mergeDaily (mergeDaily a b) c = mergeDaily a c := rfl

theorem mergeDaily_self (a : DailyRecord) : mergeDaily a a = a := rfl

theorem mergeTraffic_assoc (a b c : TrafficRecord) :
    mergeTraffic (mergeTraffic a b) c = mergeTraffic a c := rfl

theorem mergeTraffic_self (a : TrafficRecord) : mergeTraffic a a = a := rfl

theorem mergeProduct_assoc (a b c : ProductRecord) :
    mergeProduct (mergeProduct a b) c = mergeProduct a c := rfl

theorem mergeProduct_self (a : ProductRecord) : mergeProduct a a = a := rfl

theorem addTruthy_eq (acc : ℚ) (v : Option ℚ) : addTruthy acc v = acc + v.getD 0 := by
  rcases v with _ | x
  · simp [addTruthy]
  · by_cases h : x = 0 <;> simp [addTruthy, h]

theorem stateApply_events (today : String) (r : RawRow) (st : TState) :
    (stateApply today r st).events = st.events ++ [mkEvent today r] := by
  rcases h : itemIdOf r with _ | i <;> simp [stateApply, h]

theorem stateApply_daily (today : String) (r : RawRow) (st : TState) :
    (stateApply today r st).daily =
      updAssoc (dateKeyOf today r) (dailyInit (dateKeyOf today r)) (dailyApply r) st.daily := by
  rcases h : itemIdOf r with _ | i <;> simp [stateApply, h]

theorem stateApply_product (today : String) (r : RawRow) (st : TState) :
    (stateApply today r st).product =
      (match itemIdOf r with
       | none => st.product
       | some i =>
           updAssoc (dateKeyOf today r ++ "|" ++ i)
             (productInit (dateKeyOf today r) i (clean_val r.item_name) (clean_val r.item_category))
             (productApply r) st.product) := by
  rcases h : itemIdOf r with _ | i <;> simp [stateApply, h]

theorem foldlM_except_cons {σ α : Type} (f : σ → α → Except String σ) (s : σ)
    (r : α) (E : List α) :
    (r :: E).foldlM f s = (f s r).bind (fun s2 => E.foldlM f s2) := by
  simp only [List.foldlM_cons]
  rfl

theorem foldlM_except_ok_cons {σ α : Type} (f : σ → α → Except String σ) (s s3 : σ)
    (r : α) (E : List α) (h : (r :: E).foldlM f s = .ok s3) :
    ∃ s2, f s r = .ok s2 ∧ E.foldlM f s2 = .ok s3 := by
  rw [foldlM_except_cons] at h
  rcases hf : f s r with e | s2
  · rw [hf] at h; cases h
  · rw [hf] at h; exact ⟨s2, rfl, h⟩

/-- Generic invariant preservation along a foldlM over Except. -/
theorem foldlM_except_inv {σ α : Type} (f : σ → α → Except String σ) (P : σ → Prop)
    (hstep : ∀ s r s2, f s r = .ok s2 → P s → P s2) :
    ∀ (E : List α) (s s2 : σ), E.foldlM f s = .ok s2 → P s → P s2 := by
  intro E
  induction E with
  | nil => intro s s2 h hp; cases h; exact hp
  | cons r E ih =>
      intro s s2 h hp
      obtain ⟨s1, hf, hrest⟩ := foldlM_except_ok_cons _ _ _ _ _ h
      exact ih _ _ hrest (hstep _ _ _ hf hp)

/-- When processRow succeeds it either skips the row (absent user id) or
    applies the state change; in the second case the quantity cast
    succeeded. -/
theorem processRow_ok_cases (today : String) (st : TState) (r : RawRow) (st2 : TState)
    (h : processRow today st r = .ok st2) :
    (userOf r = none ∧ st2 = st) ∨
      ((userOf r).isSome ∧ (pyInt (qtyStrOf r)).isSome ∧ st2 = stateApply today r st) := by
  rcases hu : userOf r with _ | u
  · left
    refine ⟨rfl, ?_⟩
    simp [processRow, hu] at h
    exact h.symm
  · right
    rcases hq : pyInt (qtyStrOf r) with _ | q
    · simp [processRow, hu, hq] at h
    · simp [processRow, hu, hq] at h
      exact ⟨rfl, by simp [hq], h.symm⟩

/-- The events list a successful pass builds: one mkEvent per row whose
    normalized user id is present, in order. -/
theorem foldlM_events (today : String) :
    ∀ (E : List RawRow) (st st2 : TState),
      E.foldlM (processRow today) st = .ok st2 →
      st2.events = st.events ++
        (E.filter (fun r => (userOf r).isSome)).map (mkEvent today) := by
  intro E
  induction E with
  | nil => intro st st2 h; cases h; simp
  | cons r E ih =>
      intro st st2 h
      obtain ⟨s1, hf, hrest⟩ := foldlM_except_ok_cons _ _ _ _ _ h
      rcases processRow_ok_cases _ _ _ _ hf with ⟨hu, rfl⟩ | ⟨hu, _, rfl⟩
      · rw [ih _ _ hrest]
        simp [List.filter_cons, hu]
      · rw [ih _ _ hrest, stateApply_events]
        simp [List.filter_cons, hu]

theorem lookupA_updAssoc {κ α : Type} [DecidableEq κ] (k : κ) (init : α) (f : α → α)
    (t : List (κ × α)) (k2 : κ) :
    lookupA k2 (updAssoc k init f t) =
      if k2 = k then some (f ((lookupA k t).getD init)) else lookupA k2 t := by
  induction t with
  | nil =>
      by_cases h : k2 = k
      · subst h; simp [updAssoc, lookupA]
      · have h2 : ¬ k = k2 := fun hh => h hh.symm
        simp [updAssoc, lookupA, h, h2]
  | cons p t ih =>
      obtain ⟨kp, a⟩ := p
      by_cases hp : kp = k <;> by_cases hq : kp = k2 <;> by_cases hr : k2 = k <;>
        simp_all [updAssoc, lookupA]

theorem foldlM_daily (today : String) :
    ∀ (E : List RawRow) (st st2 : TState),
      E.foldlM (processRow today) st = .ok st2 → ∀ k,
      lookupA k st2.daily = E.foldl (dstep today k) (lookupA k st.daily) := by
  intro E
  induction E with
  | nil => intro st st2 h k; cases h; rfl
  | cons r E ih =>
      intro st st2 h k
      obtain ⟨s1, hf, hrest⟩ := foldlM_except_ok_cons _ _ _ _ _ h
      rcases processRow_ok_cases _ _ _ _ hf with ⟨hu, rfl⟩ | ⟨hu, _, rfl⟩
      · rw [ih _ _ hrest k]
        simp [List.foldl_cons, dstep, hu]
      · rw [ih _ _ hrest k]
        have hlk : lookupA k (stateApply today r st).daily = dstep today k (lookupA k st.daily) r := by
          rw [stateApply_daily, lookupA_updAssoc]
          by_cases hdk : k = dateKeyOf today r
          · subst hdk
            simp [dstep, hu]
          · have h2 : ¬ (dateKeyOf today r = k) := fun hh => hdk hh.symm
            simp [dstep, hdk, h2]
        rw [List.foldl_cons, hlk]

theorem foldl_dstep_filter (today k : String) :
    ∀ (E : List RawRow) (o : Option DailyAcc),
      E.foldl (dstep today k) o =
        (E.filter (fun r => (userOf r).isSome && decide (dateKeyOf today r = k))).foldl
          (dapply1 k) o := by
  intro E
  induction E with
  | nil => intro o; rfl
  | cons r E ih =>
      intro o
      by_cases hu : (userOf r).isSome <;> by_cases hd : dateKeyOf today r = k <;>
        simp [List.foldl_cons, List.filter_cons, dstep, dapply1, hu, hd, ih]

theorem foldl_dapply1_some (k : String) :
    ∀ (L : List RawRow) (b : DailyAcc),
      L.foldl (dapply1 k) (some b) = some (L.foldl dfold b) := by
  intro L
  induction L with
  | nil => intro b; rfl
  | cons r L ih => intro b; simp [List.foldl_cons, dapply1, dfold, ih]

theorem foldl_dapply1_none (k : String) (L : List RawRow) :
    L.foldl (dapply1 k) none =
      (match L with
       | [] => none
       | r :: L2 => some ((r :: L2).foldl dfold (dailyInit k))) := by
  cases L with
  | nil => rfl
  | cons r L2 =>
      rw [List.foldl_cons]
      show L2.foldl (dapply1 k) (some (dailyApply r (dailyInit k))) = _
      rw [foldl_dapply1_some]
      rfl

theorem dfold_metric_date : ∀ (L : List RawRow) (a : DailyAcc),
    (L.foldl dfold a).metric_date = a.metric_date := by
  intro L
  induction L with
  | nil => intro a; rfl
  | cons r L ih => intro a; rw [List.foldl_cons, ih]; rfl

theorem dfold_purchases : ∀ (L : List RawRow) (a : DailyAcc),
    (L.foldl dfold a).purchases =
      a.purchases + L.countP (fun r => decide (cleanName r = "purchase")) := by
  intro L
  induction L with
  | nil => intro a; simp
  | cons r L ih =>
      intro a
      rw [List.foldl_cons, ih, List.countP_cons]
      by_cases h : cleanName r = "purchase" <;>
        simp [dfold, dailyApply, h] <;> omega

theorem dfold_revenue : ∀ (L : List RawRow) (a : DailyAcc),
    (L.foldl dfold a).revenue = a.revenue + (L.map prContrib).sum := by
  intro L
  induction L with
  | nil => intro a; simp
  | cons r L ih =>
      intro a
      rw [List.foldl_cons, ih]
      show (dailyApply r a).revenue + _ = _
      simp [dailyApply, addTruthy_eq, prContrib]
      ring

theorem dfold_transactions : ∀ (L : List RawRow) (a : DailyAcc),
    (L.foldl dfold a).transactions =
      (L.filterMap txOf).foldl (fun s x => insertIfAbsent x s) a.transactions := by
  intro L
  induction L with
  | nil => intro a; rfl
  | cons r L ih =>
      intro a
      rw [List.foldl_cons, ih]
      rcases h : txOf r with _ | t <;>
        simp [dfold, dailyApply, h, List.filterMap_cons]

theorem insertIfAbsent_toFinset (x : String) (s : List String) :
    (insertIfAbsent x s).toFinset = insert x s.toFinset := by
  by_cases h : x ∈ s
  · simp [insertIfAbsent, h, Finset.insert_eq_self.mpr (List.mem_toFinset.mpr h)]
  · simp [insertIfAbsent, h, Finset.union_comm, Finset.insert_eq]

theorem insertIfAbsent_nodup (x : String) (s : List String) (h : s.Nodup) :
    (insertIfAbsent x s).Nodup := by
  by_cases hx : x ∈ s
  · simpa [insertIfAbsent, hx] using h
  · simp [insertIfAbsent, hx, List.nodup_append, h]

theorem insFold_toFinset : ∀ (xs s : List String),
    (xs.foldl (fun s x => insertIfAbsent x s) s).toFinset = s.toFinset ∪ xs.toFinset := by
  intro xs
  induction xs with
  | nil => intro s; simp
  | cons x xs ih =>
      intro s
      rw [List.foldl_cons, ih, insertIfAbsent_toFinset]
      ext y
      simp [or_comm, or_left_comm]

theorem insFold_nodup : ∀ (xs s : List String), s.Nodup →
    (xs.foldl (fun s x => insertIfAbsent x s) s).Nodup := by
  intro xs
  induction xs with
  | nil => intro s h; exact h
  | cons x xs ih => intro s h; exact ih _ (insertIfAbsent_nodup _ _ h)

theorem insFold_length (xs s : List String) (h : s.Nodup) :
    (xs.foldl (fun s x => insertIfAbsent x s) s).length = (s.toFinset ∪ xs.toFinset).card := by
  rw [← insFold_toFinset]
  exact (List.toFinset_card_of_nodup (insFold_nodup _ _ h)).symm

theorem foldlM_product (today : String) :
    ∀ (E : List RawRow) (st st2 : TState),
      E.foldlM (processRow today) st = .ok st2 → ∀ pk,
      lookupA pk st2.product = E.foldl (pstep today pk) (lookupA pk st.product) := by
  intro E
  induction E with
  | nil => intro st st2 h pk; cases h; rfl
  | cons r E ih =>
      intro st st2 h pk
      obtain ⟨s1, hf, hrest⟩ := foldlM_except_ok_cons _ _ _ _ _ h
      rcases processRow_ok_cases _ _ _ _ hf with ⟨hu, rfl⟩ | ⟨hu, _, rfl⟩
      · rw [ih _ _ hrest pk]
        simp [List.foldl_cons, pstep, hu]
      · rw [ih _ _ hrest pk]
        have hlk : lookupA pk (stateApply today r st).product =
            pstep today pk (lookupA pk st.product) r := by
          rw [stateApply_product]
          rcases hi : itemIdOf r with _ | i
          · simp [pstep, itemKeyOf, hi]
          · rw [lookupA_updAssoc]
            by_cases hk : pk = dateKeyOf today r ++ "|" ++ i
            · subst hk
              simp [pstep, itemKeyOf, hi, hu]
            · have h2 : ¬ (itemKeyOf today r = some pk) := by
                simp [itemKeyOf, hi]
                exact fun hh => hk hh.symm
              simp [pstep, hk, h2]
        rw [List.foldl_cons, hlk]

theorem productApply_revenue (r : RawRow) (pm : ProductAcc) :
    (productApply r pm).revenue = pm.revenue + pContrib r := by
  by_cases h : cleanName r = "purchase" <;>
    simp [productApply, pContrib, h, addTruthy_eq]

theorem optRev_pstep_fold (today pk : String) :
    ∀ (E : List RawRow) (o : Option ProductAcc),
      optRev (E.foldl (pstep today pk) o) =
        optRev o +
          ((E.filter (fun r =>
            (userOf r).isSome && decide (itemKeyOf today r = some pk))).map pContrib).sum := by
  intro E
  induction E with
  | nil => intro o; simp
  | cons r E ih =>
      intro o
      rw [List.foldl_cons, List.filter_cons]
      by_cases hu : (userOf r).isSome <;> by_cases hk : itemKeyOf today r = some pk
      · have hstep : pstep today pk o r =
            some (productApply r (o.getD
              (productInit (dateKeyOf today r) ((itemIdOf r).getD "")
                (clean_val r.item_name) (clean_val r.item_category)))) := by
          simp [pstep, hu, hk]
        rw [hstep, ih]
        have hrev : optRev (some (productApply r (o.getD
            (productInit (dateKeyOf today r) ((itemIdOf r).getD "")
              (clean_val r.item_name) (clean_val r.item_category))))) =
            optRev o + pContrib r := by
          rcases o with _ | pm
          · simp [optRev, productApply_revenue, productInit]
          · simp [optRev, productApply_revenue]
        rw [hrev]
        simp [hu, hk]
        ring
      · simp [pstep, hu, hk, ih]
      · simp [pstep, hu, hk, ih]
      · simp [pstep, hu, hk, ih]

theorem keysOf_updAssoc {κ α : Type} [DecidableEq κ] (k : κ) (init : α) (f : α → α)
    (t : List (κ × α)) :
    keysOf (updAssoc k init f t) =
      if k ∈ keysOf t then keysOf t else keysOf t ++ [k] := by
  induction t with
  | nil => simp [updAssoc, keysOf]
  | cons p t ih =>
      obtain ⟨kp, a⟩ := p
      by_cases hp : kp = k
      · subst hp; simp [updAssoc, keysOf]
      · have hk : ¬ k = kp := fun hh => hp hh.symm
        simp only [updAssoc, if_neg hp, keysOf_cons, ih]
        by_cases hm : k ∈ keysOf t
        · simp [hm, hk]
        · simp [hm, hk]

theorem nodup_keysOf_updAssoc {κ α : Type} [DecidableEq κ] (k : κ) (init : α)
    (f : α → α) (t : List (κ × α)) (h : (keysOf t).Nodup) :
    (keysOf (updAssoc k init f t)).Nodup := by
  rw [keysOf_updAssoc]
  by_cases hm : k ∈ keysOf t
  · simpa [hm] using h
  · simp only [hm, if_false]
    simpa [List.nodup_append] using ⟨h, hm⟩

theorem updAssoc_mem {κ α : Type} [DecidableEq κ] (k : κ) (init : α) (f : α → α) :
    ∀ (t : List (κ × α)) (q : κ × α), q ∈ updAssoc k init f t →
      q ∈ t ∨ (∃ a, q = (k, f a) ∧ (a = init ∨ (k, a) ∈ t)) := by
  intro t
  induction t with
  | nil =>
      intro q hq
      simp [updAssoc] at hq
      exact Or.inr ⟨init, by simp [hq], Or.inl rfl⟩
  | cons p t ih =>
      intro q hq
      obtain ⟨kp, a⟩ := p
      by_cases hp : kp = k
      · subst hp
        simp only [updAssoc, if_pos rfl] at hq
        rcases List.mem_cons.mp hq with h | h
        · exact Or.inr ⟨a, by simp [h], Or.inr (by simp)⟩
        · exact Or.inl (by simp [h])
      · simp only [updAssoc, if_neg hp] at hq
        rcases List.mem_cons.mp hq with h | h
        · exact Or.inl (by simp [h])
        · rcases ih q h with h2 | ⟨b, hb, hmem⟩
          · exact Or.inl (by simp [h2])
          · refine Or.inr ⟨b, hb, ?_⟩
            rcases hmem with h3 | h3
            · exact Or.inl h3
            · exact Or.inr (by simp [h3])

/-- The generated date keys never contain the pipe separator, as long as
    the wall-clock fallback date does not. -/
theorem dateKey_no_bar (today : String) (hbar : '|' ∉ today.data) (r : RawRow) :
    '|' ∉ (dateKeyOf today r).data := by
  unfold dateKeyOf parseDateKey
  rcases hd : r.event_date with _ | s
  · exact hbar
  · by_cases h8 : s.length = 8
    · by_cases hv : allDigits s.data && validYmd s
      · simp only [h8, if_true, hv, if_true]
        intro hmem
        have hdig : ∀ c ∈ s.data, c.isDigit := by
          have := (Bool.and_eq_true _ _).mp hv |>.1
          intro c hc
          exact List.all_eq_true.mp this c hc
        simp only [List.mem_append, List.mem_cons] at hmem
        rcases hmem with (h | h | h) | h | h
        · exact absurd (hdig _ (List.take_subset _ _ h)) (by decide)
        · exact absurd h (by decide)
        · exact absurd (hdig _ (List.drop_subset _ _ (List.take_subset _ _ h))) (by decide)
        · exact absurd h (by decide)
        · exact absurd (hdig _ (List.drop_subset _ _ (List.take_subset _ _ h))) (by decide)
      · simp [h8, hv, hbar]
    · simp [h8, hbar]

theorem bar_inj_chars : ∀ (xs us ys vs : List Char), '|' ∉ xs → '|' ∉ us →
    xs ++ '|' :: ys = us ++ '|' :: vs → xs = us ∧ ys = vs := by
  intro xs
  induction xs with
  | nil =>
      intro us ys vs _ hus h
      cases us with
      | nil => simpa using h
      | cons u us =>
          simp only [List.nil_append, List.cons_append, List.cons.injEq] at h
          exact absurd (show '|' ∈ u :: us by
            rw [← h.1]; exact List.mem_cons_self _ _) hus
  | cons x xs ih =>
      intro us ys vs hxs hus h
      cases us with
      | nil =>
          simp only [List.nil_append, List.cons_append, List.cons.injEq] at h
          exact absurd (show '|' ∈ x :: xs by
            rw [h.1]; exact List.mem_cons_self _ _) hxs
      | cons u us =>
          simp only [List.cons_append, List.cons.injEq] at h
          obtain ⟨hx, hrest⟩ := h
          have := ih us ys vs (fun hh => hxs (List.mem_cons_of_mem _ hh))
            (fun hh => hus (List.mem_cons_of_mem _ hh)) hrest
          exact ⟨by rw [hx, this.1], this.2⟩

theorem bar_inj_str (a b c d : String) (ha : '|' ∉ a.data) (hc : '|' ∉ c.data)
    (h : a ++ "|" ++ b = c ++ "|" ++ d) : a = c ∧ b = d := by
  have hdata : a.data ++ '|' :: b.data = c.data ++ '|' :: d.data := by
    have := congrArg String.data h
    simpa [List.append_assoc] using this
  obtain ⟨h1, h2⟩ := bar_inj_chars _ _ _ _ ha hc hdata
  constructor
  · cases a; cases c; exact congrArg String.mk h1
  · cases b; cases d; exact congrArg String.mk h2

theorem dailyApply_metric_date (r : RawRow) (a : DailyAcc) :
    (dailyApply r a).metric_date = a.metric_date := rfl

theorem productApply_metric_date (r : RawRow) (a : ProductAcc) :
    (productApply r a).metric_date = a.metric_date := rfl

theorem dictInv0_initState : dictInv0 initState := by
  constructor
  · intro p hp; cases hp
  · simp [initState, keysOf]

theorem dictInv0_step (today : String) :
    ∀ (st : TState) (r : RawRow) (st2 : TState),
      processRow today st r = .ok st2 → dictInv0 st → dictInv0 st2 := by
  intro st r st2 h hinv
  rcases processRow_ok_cases _ _ _ _ h with ⟨_, rfl⟩ | ⟨_, _, rfl⟩
  · exact hinv
  · constructor
    · intro p hp
      rw [stateApply_daily] at hp
      rcases updAssoc_mem _ _ _ _ _ hp with h2 | ⟨a, rfl, ha⟩
      · exact hinv.1 p h2
      · show dateKeyOf today r = (dailyApply r a).metric_date
        rw [dailyApply_metric_date]
        rcases ha with rfl | ha
        · rfl
        · exact hinv.1 _ ha
    · rw [stateApply_daily]
      exact nodup_keysOf_updAssoc _ _ _ _ hinv.2

theorem prodInv_initState : prodInv initState := by
  refine ⟨?_, ?_, ?_⟩
  · intro p hp; cases hp
  · intro p hp; cases hp
  · simp [initState, keysOf]

theorem prodInv_step (today : String) (hbar : '|' ∉ today.data) :
    ∀ (st : TState) (r : RawRow) (st2 : TState),
      processRow today st r = .ok st2 → prodInv st → prodInv st2 := by
  intro st r st2 h hinv
  rcases processRow_ok_cases _ _ _ _ h with ⟨_, rfl⟩ | ⟨_, _, rfl⟩
  · exact hinv
  · refine ⟨?_, ?_, ?_⟩
    · intro p hp
      rw [stateApply_daily] at hp
      rcases updAssoc_mem _ _ _ _ _ hp with h2 | ⟨a, rfl, _⟩
      · exact hinv.1 p h2
      · exact dateKey_no_bar today hbar r
    · intro p hp
      rw [stateApply_product] at hp
      rcases hi : itemIdOf r with _ | i
      · rw [hi] at hp
        exact hinv.2.1 p hp
      · rw [hi] at hp
        rcases updAssoc_mem _ _ _ _ _ hp with h2 | ⟨a, rfl, ha⟩
        · exact hinv.2.1 p h2
        · rcases ha with rfl | ha
          · exact ⟨dateKeyOf today r, i, rfl, rfl, dateKey_no_bar today hbar r⟩
          · obtain ⟨dk0, i0, hk0, hm0, hb0⟩ := hinv.2.1 _ ha
            exact ⟨dk0, i0, hk0, by rw [productApply_metric_date]; exact hm0, hb0⟩
    · rcases hi : itemIdOf r with _ | i
      · rw [stateApply_product, hi]
        exact hinv.2.2
      · rw [stateApply_product, hi]
        exact nodup_keysOf_updAssoc _ _ _ _ hinv.2.2

theorem transform_ok_unfold (today : String) (rows : List RawRow) (res : TransformResult)
    (h : transformRows today rows = .ok res) :
    ∃ st, (eventRows rows).foldlM (processRow today) initState = .ok st ∧
      res = finalizeState st := by
  unfold transformRows at h
  rcases hf : (eventRows rows).foldlM (processRow today) initState with e | st
  · rw [hf] at h; cases h
  · rw [hf] at h
    refine ⟨st, rfl, ?_⟩
    cases h
    rfl

theorem dateRows_eq (today : String) (rows : List RawRow) (k : String) :
    (eventRows rows).filter
        (fun r => (userOf r).isSome && decide (dateKeyOf today r = k)) =
      dateRows today rows k := by
  unfold dateRows emittedRows eventRows emitB
  rw [List.filter_filter, List.filter_filter]
  congr 1
  funext r
  simp only [Bool.and_comm, Bool.and_left_comm, Bool.and_assoc]

theorem finalizeDaily_fields (dm : DailyAcc) :
    (finalizeDaily dm).metric_date = dm.metric_date ∧
    (finalizeDaily dm).total_revenue = dm.revenue ∧
    (finalizeDaily dm).transactions = dm.purchases ∧
    (finalizeDaily dm).unique_purchases = dm.transactions.length := by
  exact ⟨rfl, rfl, rfl, rfl⟩

/-- What a finalized daily record holds, in terms of the emitted rows that
    share its date key: revenue is the sum of the truthy purchase-revenue
    contributions, the transactions column counts purchase events, the
    unique-purchases column counts distinct transaction ids, and average
    order value divides revenue by that distinct count. -/
theorem daily_record_facts (today : String) (rows : List RawRow) (res : TransformResult)
    (h : transformRows today rows = .ok res) (d : DailyRecord)
    (hd : d ∈ res.daily_metrics) :
    dateRows today rows d.metric_date ≠ [] ∧
    d.total_revenue = ((dateRows today rows d.metric_date).map prContrib).sum ∧
    d.transactions =
      (dateRows today rows d.metric_date).countP
        (fun r => decide (cleanName r = "purchase")) ∧
    d.unique_purchases =
      ((dateRows today rows d.metric_date).filterMap txOf).toFinset.card ∧
    d.average_order_value =
      (if 0 < d.unique_purchases then d.total_revenue / (d.unique_purchases : ℚ) else 0) := by
  obtain ⟨st, hfold, rfl⟩ := transform_ok_unfold _ _ _ h
  simp only [finalizeState, List.mem_map] at hd
  obtain ⟨p, hpmem, hfin⟩ := hd
  have hinv : dictInv0 st :=
    foldlM_except_inv _ dictInv0 (dictInv0_step today) _ _ _ hfold dictInv0_initState
  have hkey : p.1 = p.2.metric_date := hinv.1 p hpmem
  have hlk : lookupA p.1 st.daily = some p.2 :=
    lookupA_of_mem _ _ _ hinv.2 (by rw [Prod.mk.eta]; exact hpmem)
  have hchar := foldlM_daily today _ _ _ hfold p.1
  rw [hlk] at hchar
  have hinit : lookupA p.1 (initState).daily = none := rfl
  rw [hinit, foldl_dstep_filter, dateRows_eq, foldl_dapply1_none] at hchar
  have hmd : (finalizeDaily p.2).metric_date = p.1 := by
    rw [(finalizeDaily_fields p.2).1, hkey]
  rcases hE : dateRows today rows p.1 with _ | ⟨r, L⟩
  · rw [hE] at hchar; cases hchar
  · rw [hE] at hchar
    have hdm : p.2 = (r :: L).foldl dfold (dailyInit p.1) := by
      injection hchar
    subst hfin
    rw [hmd, hE]
    refine ⟨by simp, ?_, ?_, ?_, ?_⟩
    · rw [(finalizeDaily_fields p.2).2.1, hdm, dfold_revenue]
      simp [dailyInit]
    · rw [(finalizeDaily_fields p.2).2.2.1, hdm, dfold_purchases]
      simp [dailyInit]
    · rw [(finalizeDaily_fields p.2).2.2.2, hdm, dfold_transactions]
      rw [insFold_length _ _ (by simp [dailyInit])]
      simp [dailyInit]
    · rw [show (finalizeDaily p.2).average_order_value =
          (if 0 < p.2.transactions.length then
            p.2.revenue / (p.2.transactions.length : ℚ) else 0) from rfl]
      rw [(finalizeDaily_fields p.2).2.1, (finalizeDaily_fields p.2).2.2.2]

theorem rowKey_cond (today pk : String) (r : RawRow) :
    ((userOf r).isSome && decide (itemKeyOf today r = some pk)) =
      decide (rowKeyOf today r = some pk) := by
  by_cases hu : (userOf r).isSome <;> simp [rowKeyOf, hu]

theorem sum_filter_cons {β : Type} (p : β → Bool) (c : β → ℚ) (r : β) (E : List β) :
    (((r :: E).filter p).map c).sum =
      (if p r then c r else 0) + ((E.filter p).map c).sum := by
  by_cases h : p r <;> simp [List.filter_cons, h]

theorem sum_map_add {β : Type} (f g : β → ℚ) :
    ∀ K : List β, (K.map (fun x => f x + g x)).sum = (K.map f).sum + (K.map g).sum := by
  intro K
  induction K with
  | nil => simp
  | cons x K ih =>
      simp only [List.map_cons, List.sum_cons, ih]
      ring

theorem sum_pick {β : Type} (keyfn : β → Option String) (c : β → ℚ) (r : β) :
    ∀ K : List String, K.Nodup →
      (K.map (fun pk => if keyfn r = some pk then c r else 0)).sum =
        (if (keyfn r).any (fun pk => decide (pk ∈ K)) then c r else 0) := by
  intro K
  induction K with
  | nil =>
      intro _
      rcases hk : keyfn r with _ | x <;> simp [hk]
  | cons pk K ih =>
      intro hnd
      rw [List.nodup_cons] at hnd
      rw [List.map_cons, List.sum_cons]
      by_cases h : keyfn r = some pk
      · rw [if_pos h]
        have hz : (K.map (fun pk2 => if keyfn r = some pk2 then c r else 0)).sum = 0 := by
          apply List.sum_eq_zero
          intro x hx
          simp only [List.mem_map] at hx
          obtain ⟨pk2, hpk2, rfl⟩ := hx
          have hne : ¬ keyfn r = some pk2 := by
            rw [h]
            intro hh
            injection hh with hh
            exact hnd.1 (hh ▸ hpk2)
          rw [if_neg hne]
        rw [hz, h]
        simp
      · rw [if_neg h, zero_add, ih hnd.2]
        rcases hk : keyfn r with _ | x
        · simp
        · have hx : x ≠ pk := by
            intro hh
            rw [hk, hh] at h
            exact h rfl
          simp [List.mem_cons, hx]

theorem sum_groups {β : Type} (keyfn : β → Option String) (c : β → ℚ) :
    ∀ (E : List β) (K : List String), K.Nodup →
      (K.map (fun pk =>
        ((E.filter (fun r => decide (keyfn r = some pk))).map c).sum)).sum =
        ((E.filter (fun r => (keyfn r).any (fun pk => decide (pk ∈ K)))).map c).sum := by
  intro E
  induction E with
  | nil =>
      intro K _
      simp only [List.filter_nil, List.map_nil, List.sum_nil]
      apply List.sum_eq_zero
      intro x hx
      simp only [List.mem_map] at hx
      obtain ⟨pk, _, rfl⟩ := hx
      rfl
  | cons r E ih =>
      intro K hnd
      have h1 : (K.map (fun pk =>
          (((r :: E).filter (fun r2 => decide (keyfn r2 = some pk))).map c).sum)).sum =
          (K.map (fun pk =>
            (if keyfn r = some pk then c r else 0) +
              ((E.filter (fun r2 => decide (keyfn r2 = some pk))).map c).sum)).sum := by
        apply congrArg List.sum
        apply List.map_congr_left
        intro pk _
        rw [sum_filter_cons]
        congr 1
        simp
      rw [h1, sum_map_add, sum_pick keyfn c r K hnd, ih K hnd, sum_filter_cons]

theorem finalizeProduct_fields (pm : ProductAcc) :
    (finalizeProduct pm).metric_date = pm.metric_date ∧
    (finalizeProduct pm).revenue = pm.revenue := ⟨rfl, rfl⟩

theorem prod_records_sum (k : String) :
    ∀ P : List (String × ProductAcc),
      (((P.map (fun p => finalizeProduct p.2)).filter
          (fun q => decide (q.metric_date = k))).map (fun q => q.revenue)).sum =
        ((P.filter (fun p => decide (p.2.metric_date = k))).map
          (fun p => p.2.revenue)).sum := by
  intro P
  induction P with
  | nil => rfl
  | cons p P ih =>
      by_cases h : p.2.metric_date = k
      · simp [List.filter_cons, (finalizeProduct_fields p.2).1, h,
          (finalizeProduct_fields p.2).2, ih]
      · simp [List.filter_cons, (finalizeProduct_fields p.2).1, h, ih]

theorem lookupA_mem {κ α : Type} [DecidableEq κ] (k : κ) (a : α) :
    ∀ t : List (κ × α), lookupA k t = some a → (k, a) ∈ t := by
  intro t
  induction t with
  | nil => intro h; cases h
  | cons p t ih =>
      intro h
      obtain ⟨kp, b⟩ := p
      by_cases hk : kp = k
      · subst hk
        simp only [lookupA, if_pos rfl] at h
        injection h with h
        subst h
        exact List.mem_cons_self _ _
      · simp only [lookupA, if_neg hk] at h
        exact List.mem_cons_of_mem _ (ih h)

theorem pstep_fold_some_isSome (today pk : String) :
    ∀ (E : List RawRow) (o : Option ProductAcc), o.isSome →
      (E.foldl (pstep today pk) o).isSome := by
  intro E
  induction E with
  | nil => intro o h; exact h
  | cons r E ih =>
      intro o h
      rw [List.foldl_cons]
      apply ih
      by_cases hc : (userOf r).isSome ∧ itemKeyOf today r = some pk <;>
        simp [pstep, hc, h]

theorem pstep_fold_isSome (today pk : String) :
    ∀ (E : List RawRow) (o : Option ProductAcc) (r0 : RawRow), r0 ∈ E →
      (userOf r0).isSome → itemKeyOf today r0 = some pk →
      (E.foldl (pstep today pk) o).isSome := by
  intro E
  induction E with
  | nil => intro o r0 h; cases h
  | cons r E ih =>
      intro o r0 hmem hu hk
      rcases List.mem_cons.mp hmem with h | h
      · subst h
        rw [List.foldl_cons]
        apply pstep_fold_some_isSome
        simp [pstep, hu, hk]
      · rw [List.foldl_cons]
        exact ih _ _ h hu hk

/-- Sum of the product table revenues for one date key, expressed over the
    emitted rows: it collects the purchase item-revenue contributions of
    exactly the emitted rows carrying an item id and that date key. -/
theorem product_sum (today : String) (rows : List RawRow) (res : TransformResult)
    (h : transformRows today rows = .ok res) (hbar : '|' ∉ today.data)
    (k : String) (hkbar : '|' ∉ k.data) :
    ((res.product_metrics.filter (fun q => decide (q.metric_date = k))).map
        (fun q => q.revenue)).sum =
      (((emittedRows rows).filter
        (fun r => decide (dateKeyOf today r = k) && (itemIdOf r).isSome)).map
          pContrib).sum := by
  obtain ⟨st, hfold, rfl⟩ := transform_ok_unfold _ _ _ h
  have hinv : prodInv st :=
    foldlM_except_inv _ prodInv (prodInv_step today hbar) _ _ _ hfold prodInv_initState
  have hres : (finalizeState st).product_metrics = st.product.map (fun p => finalizeProduct p.2) := rfl
  rw [hres, prod_records_sum]
  have hval : ∀ p ∈ st.product.filter (fun p => decide (p.2.metric_date = k)),
      p.2.revenue = (((eventRows rows).filter
        (fun r => decide (rowKeyOf today r = some p.1))).map pContrib).sum := by
    intro p hp
    have hpmem : p ∈ st.product := List.mem_of_mem_filter hp
    have hlk : lookupA p.1 st.product = some p.2 :=
      lookupA_of_mem _ _ _ hinv.2.2 (by rw [Prod.mk.eta]; exact hpmem)
    have hchar := foldlM_product today _ _ _ hfold p.1
    rw [hlk] at hchar
    have hrev : optRev (some p.2) =
        optRev ((eventRows rows).foldl (pstep today p.1)
          (lookupA p.1 initState.product)) := by rw [← hchar]
    rw [show lookupA p.1 initState.product = (none : Option ProductAcc) from rfl,
      optRev_pstep_fold] at hrev
    have hfe : (eventRows rows).filter
        (fun r => (userOf r).isSome && decide (itemKeyOf today r = some p.1)) =
        (eventRows rows).filter (fun r => decide (rowKeyOf today r = some p.1)) := by
      congr 1
      funext r
      exact rowKey_cond today p.1 r
    rw [hfe] at hrev
    simpa [optRev] using hrev
  have hKnd : (keysOf (st.product.filter (fun p => decide (p.2.metric_date = k)))).Nodup := by
    apply List.Nodup.sublist _ hinv.2.2
    exact (List.filter_sublist _).map Prod.fst
  have hsum1 : ((st.product.filter (fun p => decide (p.2.metric_date = k))).map
      (fun p => p.2.revenue)).sum =
      ((keysOf (st.product.filter (fun p => decide (p.2.metric_date = k)))).map
        (fun pk => (((eventRows rows).filter
          (fun r => decide (rowKeyOf today r = some pk))).map pContrib).sum)).sum := by
    unfold keysOf
    rw [List.map_map]
    congr 1
    apply List.map_congr_left
    intro p hp
    exact hval p hp
  rw [hsum1, sum_groups _ _ _ _ hKnd]
  have hmemkeys : ∀ pk : String,
      pk ∈ keysOf (st.product.filter (fun p => decide (p.2.metric_date = k))) ↔
        ∃ pm, (pk, pm) ∈ st.product ∧ pm.metric_date = k := by
    intro pk
    constructor
    · intro hk
      simp only [keysOf, List.mem_map] at hk
      obtain ⟨p, hp, rfl⟩ := hk
      have h1 := List.mem_of_mem_filter hp
      have h2 := List.of_mem_filter hp
      simp only [decide_eq_true_eq] at h2
      exact ⟨p.2, by rw [Prod.mk.eta]; exact h1, h2⟩
    · intro ⟨pm, hmem, hdate⟩
      simp only [keysOf, List.mem_map]
      refine ⟨(pk, pm), ?_, rfl⟩
      apply List.mem_filter.mpr
      exact ⟨hmem, by simp [hdate]⟩
  have hfe2 : (eventRows rows).filter
      (fun r => (rowKeyOf today r).any (fun pk =>
        decide (pk ∈ keysOf (st.product.filter (fun p => decide (p.2.metric_date = k)))))) =
      (eventRows rows).filter
        (fun r => (userOf r).isSome &&
          (decide (dateKeyOf today r = k) && (itemIdOf r).isSome)) := by
    apply List.filter_congr
    intro r hr
    by_cases hu : (userOf r).isSome
    · rcases hi : itemIdOf r with _ | i
      · simp [rowKeyOf, itemKeyOf, hu, hi]
      · have hrk : rowKeyOf today r = some (dateKeyOf today r ++ "|" ++ i) := by
          simp [rowKeyOf, itemKeyOf, hu, hi]
        have hiff : (dateKeyOf today r ++ "|" ++ i) ∈
            keysOf (st.product.filter (fun p => decide (p.2.metric_date = k))) ↔
            dateKeyOf today r = k := by
          rw [hmemkeys]
          constructor
          · intro ⟨pm, hmem, hdate⟩
            obtain ⟨dk0, i0, hk0, hm0, hb0⟩ := hinv.2.1 _ hmem
            have hkk : dk0 = k := by rw [← hm0, hdate]
            subst hkk
            exact (bar_inj_str _ _ _ _ (dateKey_no_bar today hbar r) hb0 hk0).1
          · intro hdk
            have hik : itemKeyOf today r = some (dateKeyOf today r ++ "|" ++ i) := by
              simp [itemKeyOf, hi]
            have hs : ((eventRows rows).foldl (pstep today (dateKeyOf today r ++ "|" ++ i))
                (lookupA (dateKeyOf today r ++ "|" ++ i) initState.product)).isSome := by
              apply pstep_fold_isSome _ _ _ _ r hr hu hik
            rw [← foldlM_product today _ _ _ hfold] at hs
            obtain ⟨pm, hpm⟩ := Option.isSome_iff_exists.mp hs
            have hmem := lookupA_mem _ _ _ hpm
            obtain ⟨dk0, i0, hk0, hm0, hb0⟩ := hinv.2.1 _ hmem
            have hkinj := bar_inj_str _ _ _ _ (dateKey_no_bar today hbar r) hb0 hk0
            refine ⟨pm, hmem, ?_⟩
            rw [hm0, ← hkinj.1]
            exact hdk
        simp only [hrk, Option.any_some, hu, Bool.true_and]
        by_cases hdk : dateKeyOf today r = k
        · have hm2 := hiff.mpr hdk
          rw [hdk] at hm2
          simp [hm2, hdk]
        · have : ¬ (dateKeyOf today r ++ "|" ++ i) ∈
              keysOf (st.product.filter (fun p => decide (p.2.metric_date = k))) := by
            intro hh; exact hdk (hiff.mp hh)
          simp [this, hdk]
    · simp [rowKeyOf, hu]
  rw [hfe2]
  have hbridge : (eventRows rows).filter
      (fun r => (userOf r).isSome &&
        (decide (dateKeyOf today r = k) && (itemIdOf r).isSome)) =
      (emittedRows rows).filter
        (fun r => decide (dateKeyOf today r = k) && (itemIdOf r).isSome) := by
    unfold emittedRows eventRows emitB
    rw [List.filter_filter, List.filter_filter]
    congr 1
    funext r
    simp only [Bool.and_comm, Bool.and_left_comm, Bool.and_assoc]
  rw [hbridge]

theorem sum_contrib_switch :
    ∀ L : List RawRow,
      (∀ r ∈ L, prContrib r = (if (itemIdOf r).isSome then pContrib r else 0)) →
      (L.map prContrib).sum =
        ((L.filter (fun r => (itemIdOf r).isSome)).map pContrib).sum := by
  intro L
  induction L with
  | nil => intro _; rfl
  | cons r L ih =>
      intro hc
      rw [List.map_cons, List.sum_cons, hc r (List.mem_cons_self _ _),
        ih (fun x hx => hc x (List.mem_cons_of_mem _ hx)), List.filter_cons]
      by_cases h : (itemIdOf r).isSome <;> simp [h]

theorem emittedRows_eq (rows : List RawRow) :
    emittedRows rows = (eventRows rows).filter (fun r => (userOf r).isSome) := by
  unfold emittedRows eventRows emitB
  rw [List.filter_filter]
  congr 1
  funext r
  rw [Bool.and_comm]

/- The claims. -/
/-- C1 counterexample: upserting a daily record onto an existing date does
    not overwrite every non-key column; the stored unique_purchases keeps
    its prior value 5 although the new record carries 7. -/
theorem claim1_counterexample :
    (lookupA "2021-01-15" ((load_data c1Data c1DB).daily)).map
        (fun row => row.unique_purchases) = some 5 ∧
    c1New.unique_purchases = 7 ∧ (5 : Nat) ≠ 7 := by
  refine ⟨rfl, rfl, by decide⟩

/-- C1 amended: the upsert overwrites exactly the columns listed in each DO
    UPDATE clause.  A daily row keeps its stored items_sold, bounce_rate,
    unique_purchases, view_item_events, add_to_cart_events and
    begin_checkout_events; a traffic row keeps its stored campaign; a
    product row keeps its stored item_name, item_category, checkouts and
    refund_amount; all other non-key columns take the new record values. -/
theorem claim1_amended (db : DB) (evs : List Event) (d : DailyRecord)
    (t : TrafficRecord) (p : ProductRecord) (old : DailyRecord)
    (oldT : TrafficRecord) (oldP : ProductRecord)
    (h1 : lookupA (dailyKey d) db.daily = some old)
    (h2 : lookupA (trafficKey t) db.traffic = some oldT)
    (h3 : lookupA (productKey p) db.product = some oldP) :
    lookupA (dailyKey d) (load_data ⟨evs, [d], [t], [p]⟩ db).daily =
      some { d with
             metric_date := old.metric_date
             items_sold := old.items_sold
             bounce_rate := old.bounce_rate
             unique_purchases := old.unique_purchases
             view_item_events := old.view_item_events
             add_to_cart_events := old.add_to_cart_events
             begin_checkout_events := old.begin_checkout_events } ∧
    lookupA (trafficKey t) (load_data ⟨evs, [d], [t], [p]⟩ db).traffic =
      some { t with
             metric_date := oldT.metric_date
             source := oldT.source
             medium := oldT.medium
             campaign := oldT.campaign } ∧
    lookupA (productKey p) (load_data ⟨evs, [d], [t], [p]⟩ db).product =
      some { p with
             metric_date := oldP.metric_date
             item_id := oldP.item_id
             item_name := oldP.item_name
             item_category := oldP.item_category
             checkouts := oldP.checkouts
             refund_amount := oldP.refund_amount } := by
  refine ⟨?_, ?_, ?_⟩
  · show lookupA (dailyKey d) (upsert (dailyKey d) d mergeDaily db.daily) = _
    rw [lookupA_upsert, if_pos rfl, h1]
    rfl
  · show lookupA (trafficKey t) (upsert (trafficKey t) t mergeTraffic db.traffic) = _
    rw [lookupA_upsert, if_pos rfl, h2]
    rfl
  · show lookupA (productKey p) (upsert (productKey p) p mergeProduct db.product) = _
    rw [lookupA_upsert, if_pos rfl, h3]
    rfl

theorem claim1_witness :
    lookupA (dailyKey c1New) (load_data ⟨[], [c1New], [c1T], [c1P]⟩ c1wDB).daily =
      some { c1New with
             metric_date := c1Old.metric_date
             items_sold := c1Old.items_sold
             bounce_rate := c1Old.bounce_rate
             unique_purchases := c1Old.unique_purchases
             view_item_events := c1Old.view_item_events
             add_to_cart_events := c1Old.add_to_cart_events
             begin_checkout_events := c1Old.begin_checkout_events } ∧
    lookupA (trafficKey c1T) (load_data ⟨[], [c1New], [c1T], [c1P]⟩ c1wDB).traffic =
      some { c1T with
             metric_date := c1TOld.metric_date
             source := c1TOld.source
             medium := c1TOld.medium
             campaign := c1TOld.campaign } ∧
    lookupA (productKey c1P) (load_data ⟨[], [c1New], [c1T], [c1P]⟩ c1wDB).product =
      some { c1P with
             metric_date := c1POld.metric_date
             item_id := c1POld.item_id
             item_name := c1POld.item_name
             item_category := c1POld.item_category
             checkouts := c1POld.checkouts
             refund_amount := c1POld.refund_amount } :=
  claim1_amended c1wDB [] c1New c1T c1P c1Old c1TOld c1POld rfl rfl rfl

/-- C2 counterexample: loading the same transformed data twice does not
    reproduce the state of one load: the append-only raw_events table holds
    the events twice. -/
theorem claim2_counterexample :
    (load_data c2Data (load_data c2Data c2DB)).raw_events ≠
      (load_data c2Data c2DB).raw_events ∧
    (load_data c2Data (load_data c2Data c2DB)).raw_events.length = 2 ∧
    (load_data c2Data c2DB).raw_events.length = 1 := by
  refine ⟨by decide, rfl, rfl⟩

/-- C2 amended: a second load of identical data leaves the three aggregate
    metric tables exactly as after one load (no duplicate keys, no
    accumulation), provided the starting tables have no duplicate natural
    keys; the raw-events table however receives the events again and the
    run ledger gains one more completed record per run. -/
theorem claim2_amended (db : DB) (data : TransformResult)
    (h1 : (keysOf db.daily).Nodup) (h2 : (keysOf db.traffic).Nodup)
    (h3 : (keysOf db.product).Nodup) :
    (load_data data (load_data data db)).daily = (load_data data db).daily ∧
    (load_data data (load_data data db)).traffic = (load_data data db).traffic ∧
    (load_data data (load_data data db)).product = (load_data data db).product ∧
    (load_data data (load_data data db)).raw_events =
      (load_data data db).raw_events ++ data.events ∧
    (load_data data (load_data data db)).runs =
      (load_data data db).runs ++ [⟨"completed", data.events.length, none⟩] := by
  refine ⟨?_, ?_, ?_, rfl, rfl⟩
  · exact upFold_idem dailyKey mergeDaily mergeDaily_assoc mergeDaily_self _ _ h1
  · exact upFold_idem trafficKey mergeTraffic mergeTraffic_assoc mergeTraffic_self _ _ h2
  · exact upFold_idem productKey mergeProduct mergeProduct_assoc mergeProduct_self _ _ h3

theorem claim2_witness :
    (load_data c2Data (load_data c2Data c2DB)).daily = (load_data c2Data c2DB).daily ∧
    (load_data c2Data (load_data c2Data c2DB)).traffic = (load_data c2Data c2DB).traffic ∧
    (load_data c2Data (load_data c2Data c2DB)).product = (load_data c2Data c2DB).product ∧
    (load_data c2Data (load_data c2Data c2DB)).raw_events =
      (load_data c2Data c2DB).raw_events ++ c2Data.events ∧
    (load_data c2Data (load_data c2Data c2DB)).runs =
      (load_data c2Data c2DB).runs ++ [⟨"completed", c2Data.events.length, none⟩] :=
  claim2_amended c2DB c2Data (by decide) (by decide) (by decide)

/-- C3: after forward filling, a row is emitted, as one stored raw event,
    exactly when its filled event name cell is present and its normalized
    filled user id is present; concretely, a row whose name fills to
    page_view from two rows earlier is kept and counted in page_views, and
    a row with no prior event name in the sequence is dropped. -/
theorem claim3_reconstructor :
    (∀ (today : String) (rows : List RawRow) (res : TransformResult),
        transformRows today rows = .ok res →
        res.events = (emittedRows rows).map (mkEvent today)) ∧
    (transformRows "2021-02-01" [c3RowA, c3RowB, c3RowC]).map
        (fun res => (res.events.length, res.daily_metrics.map (fun d => d.page_views))) =
      .ok (3, [3]) ∧
    (transformRows "2021-02-01" [c3RowC]).map (fun res => res.events.length) = .ok 0 := by
  refine ⟨?_, rfl, rfl⟩
  intro today rows res h
  obtain ⟨st, hfold, rfl⟩ := transform_ok_unfold _ _ _ h
  have he := foldlM_events today _ _ _ hfold
  show st.events = _
  rw [he, emittedRows_eq]
  simp [initState]

theorem claim3_witness :
    (TransformResult.mk [] [] [] []).events =
      (emittedRows []).map (mkEvent "2021-01-01") :=
  claim3_reconstructor.1 "2021-01-01" [] ⟨[], [], [], []⟩ rfl

/-- C4: two purchase rows on 20210115 by user u1 with transaction ids t1
    and t2 and revenues 10.00 and 20.00 produce a daily record for
    2021-01-15 with transactions 2, total revenue 30.00 and average order
    value 15.00. -/
theorem claim4_scenario :
    (transformRows "2021-02-01" [c4Row "t1" "10.00", c4Row "t2" "20.00"]).map
        (fun res => res.daily_metrics.map
          (fun d => (d.metric_date, d.transactions, d.total_revenue,
            d.average_order_value))) =
      .ok [("2021-01-15", 2, (30 : ℚ), (15 : ℚ))] := by with_unfolding_all rfl

/-- C5: finalization is zero guarded: with no distinct sessions the daily
    conversion rate is 0, with no distinct transaction ids the daily
    average order value is 0, and with no distinct sessions the traffic
    conversion rate is 0; the ratios are total functions, never an error. -/
theorem claim5_zero_guard (dm : DailyAcc) (tm : TrafficAcc) :
    (dm.sessions.length = 0 → (finalizeDaily dm).conversion_rate = 0) ∧
    (dm.transactions.length = 0 → (finalizeDaily dm).average_order_value = 0) ∧
    (tm.sessions.length = 0 → (finalizeTraffic tm).conversion_rate = 0) := by
  refine ⟨?_, ?_, ?_⟩ <;> intro h <;> simp [finalizeDaily, finalizeTraffic, h]

theorem claim5_witness :
    (finalizeDaily (dailyInit "2021-01-15")).conversion_rate = 0 ∧
    (finalizeDaily (dailyInit "2021-01-15")).average_order_value = 0 ∧
    (finalizeTraffic (trafficInit "2021-01-15" "google" "cpc")).conversion_rate = 0 :=
  ⟨(claim5_zero_guard (dailyInit "2021-01-15") (trafficInit "2021-01-15" "google" "cpc")).1 rfl,
   (claim5_zero_guard (dailyInit "2021-01-15") (trafficInit "2021-01-15" "google" "cpc")).2.1 rfl,
   (claim5_zero_guard (dailyInit "2021-01-15") (trafficInit "2021-01-15" "google" "cpc")).2.2 rfl⟩

/-- C6 counterexample: one purchase event carrying an item id, with
    purchase revenue 10.0 but item revenue 7.0; every purchase event
    carries an item id, yet the daily total revenue is 10 while the product
    revenue sum for the date is 7 — the daily side sums
    ecommerce.purchase_revenue and the product side sums
    items.item_revenue. -/
theorem claim6_counterexample :
    (transformRows "2021-02-01" [c6Row]).map
        (fun res => (res.daily_metrics.map (fun d => (d.metric_date, d.total_revenue)),
          res.product_metrics.map (fun p => (p.metric_date, p.item_id, p.revenue)))) =
      .ok ([("2021-01-15", (10 : ℚ))], [("2021-01-15", "i1", (7 : ℚ))]) ∧
    (10 : ℚ) ≠ 7 := by
  refine ⟨by with_unfolding_all rfl, by decide⟩

/-- C6 amended: revenue conservation holds once the two revenue fields
    agree: if every emitted row whose truthy purchase revenue is nonzero is
    a purchase event carrying an item id and each emitted row contributes
    the same truthy item revenue as its purchase revenue (and the
    wall-clock fallback date contains no pipe character, which the date
    keys use as their separator), then each daily record total revenue
    equals the sum of the product record revenues for that date. -/
theorem claim6_amended (today : String) (rows : List RawRow) (res : TransformResult)
    (d : DailyRecord) (h : transformRows today rows = .ok res)
    (hbar : '|' ∉ today.data)
    (hC : ∀ r ∈ emittedRows rows,
      prContrib r = (if (itemIdOf r).isSome then pContrib r else 0))
    (hd : d ∈ res.daily_metrics) :
    d.total_revenue =
      ((res.product_metrics.filter (fun p => decide (p.metric_date = d.metric_date))).map
        (fun p => p.revenue)).sum := by
  have hkbar : '|' ∉ d.metric_date.data := by
    obtain ⟨st, hfold, hres⟩ := transform_ok_unfold _ _ _ h
    have hinv0 : dictInv0 st :=
      foldlM_except_inv _ dictInv0 (dictInv0_step today) _ _ _ hfold dictInv0_initState
    have hinvp : prodInv st :=
      foldlM_except_inv _ prodInv (prodInv_step today hbar) _ _ _ hfold prodInv_initState
    subst hres
    simp only [finalizeState, List.mem_map] at hd
    obtain ⟨p, hp, rfl⟩ := hd
    have h1 : p.1 = p.2.metric_date := hinv0.1 p hp
    have h2 : '|' ∉ p.1.data := hinvp.1 p hp
    rw [(finalizeDaily_fields p.2).1, ← h1]
    exact h2
  rw [product_sum today rows res h hbar d.metric_date hkbar]
  have hfacts := daily_record_facts today rows res h d hd
  rw [hfacts.2.1]
  rw [sum_contrib_switch (dateRows today rows d.metric_date)
    (fun r hr => hC r (List.mem_of_mem_filter hr))]
  congr 1
  unfold dateRows
  rw [List.filter_filter]
  have hpred : (fun a => (itemIdOf a).isSome && decide (dateKeyOf today a = d.metric_date)) =
      (fun r : RawRow => decide (dateKeyOf today r = d.metric_date) && (itemIdOf r).isSome) :=
    funext fun r => Bool.and_comm _ _
  rw [hpred]

theorem claim6_witness :
    c6wD.total_revenue =
      ((c6wRes.product_metrics.filter
        (fun p => decide (p.metric_date = c6wD.metric_date))).map
          (fun p => p.revenue)).sum :=
  claim6_amended "2021-02-01" [c6wRow] c6wRes c6wD (by with_unfolding_all rfl) (by decide)
    (by with_unfolding_all decide) (by with_unfolding_all decide)

/-- C7: the transform pass is aborted by a malformed items.quantity value:
    the bare int() cast raises on the row, while the same malformed text in
    the revenue field merely degrades that field to absent and the pass
    continues.  This contradicts the never-aborts failure semantics. -/
theorem claim7_quantity_aborts :
    transformRows "2021-02-01" [c7Row] =
      .error "invalid literal for int() with base 10: 2.5" ∧
    (transformRows "2021-02-01" [c7RowRev]).map
        (fun res => (res.events.length, res.daily_metrics.map (fun d => d.total_revenue))) =
      .ok (1, [(0 : ℚ)]) ∧
    clean_num (some "2.5") = some ((5 : ℚ) / 2) := by
  refine ⟨rfl, by with_unfolding_all rfl, by with_unfolding_all decide⟩

/-- C8 counterexample: with zero usable acquired tables the pipeline does
    not mark the run failed: the transform returns empty record sets, the
    load runs to completion, and the single run record reads completed with
    zero rows. -/
theorem claim8_counterexample :
    (run_etl "2021-02-01" [("events.csv", [])] c8DB).2.runs =
      [⟨"completed", 0, none⟩] ∧
    (run_etl "2021-02-01" [("events.csv", [])] c8DB).1 = ⟨true, 0, none⟩ ∧
    "completed" ≠ "failed" := by
  refine ⟨rfl, rfl, by decide⟩

/-- C8 amended: when the acquisition step yields no usable table, the run
    is recorded as completed with zero rows processed and the pipeline
    reports success; it is not marked failed. -/
theorem claim8_amended (today : String) (dfs : List (String × List RawRow)) (db : DB)
    (h : ∀ p ∈ dfs, p.2 = []) :
    (run_etl today dfs db).1 = ⟨true, 0, none⟩ ∧
    (run_etl today dfs db).2.runs = db.runs ++ [⟨"completed", 0, none⟩] := by
  have hfind : dfs.find? (fun p => !p.2.isEmpty) = none := by
    apply List.find?_eq_none.mpr
    intro p hp
    simp [h p hp]
  have htr : transform_data today dfs = .ok emptyResult := by
    unfold transform_data
    rw [hfind]
  unfold run_etl
  rw [htr]
  exact ⟨rfl, rfl⟩

theorem claim8_witness :
    (run_etl "2021-02-01" [("events.csv", [])] c8wDB).1 = ⟨true, 0, none⟩ ∧
    (run_etl "2021-02-01" [("events.csv", [])] c8wDB).2.runs =
      c8wDB.runs ++ [⟨"completed", 0, none⟩] :=
  claim8_amended "2021-02-01" [("events.csv", [])] c8wDB (by decide)

/-- C9: in every daily record the transactions column counts purchase
    events for the date while unique_purchases counts distinct transaction
    ids, and the average order value divides total revenue by the distinct
    count, not by the transactions column; concretely, two purchase events
    sharing transaction id t1 give transactions 2, unique_purchases 1 and
    average order value 30, not 15. -/
theorem claim9_distinct_tx :
    (∀ (today : String) (rows : List RawRow) (res : TransformResult) (d : DailyRecord),
        transformRows today rows = .ok res → d ∈ res.daily_metrics →
        d.transactions = (dateRows today rows d.metric_date).countP
            (fun r => decide (cleanName r = "purchase")) ∧
        d.unique_purchases =
          ((dateRows today rows d.metric_date).filterMap txOf).toFinset.card ∧
        d.average_order_value =
          (if 0 < d.unique_purchases then d.total_revenue / (d.unique_purchases : ℚ)
           else 0)) ∧
    (transformRows "2021-02-01" [c4Row "t1" "10.00", c4Row "t1" "20.00"]).map
        (fun res => res.daily_metrics.map
          (fun d => (d.transactions, d.unique_purchases, d.average_order_value,
            d.total_revenue / (d.transactions : ℚ)))) =
      .ok [(2, 1, (30 : ℚ), (15 : ℚ))] ∧ (30 : ℚ) ≠ 15 := by
  refine ⟨?_, by with_unfolding_all rfl, by decide⟩
  intro today rows res d h hd
  have hfacts := daily_record_facts today rows res h d hd
  exact ⟨hfacts.2.2.1, hfacts.2.2.2.1, hfacts.2.2.2.2⟩

theorem claim9_witness :
    c9d.transactions = (dateRows "2021-02-01" [c4Row "t1" "10.00"] c9d.metric_date).countP
        (fun r => decide (cleanName r = "purchase")) ∧
    c9d.unique_purchases =
      ((dateRows "2021-02-01" [c4Row "t1" "10.00"] c9d.metric_date).filterMap
        txOf).toFinset.card ∧
    c9d.average_order_value =
      (if 0 < c9d.unique_purchases then c9d.total_revenue / (c9d.unique_purchases : ℚ)
       else 0) :=
  claim9_distinct_tx.1 "2021-02-01" [c4Row "t1" "10.00"] c9Res c9d
    (by with_unfolding_all rfl) (by with_unfolding_all decide)

/-- C10: the output columns items_sold and bounce_rate of every daily
    record and checkouts and refund_amount of every product record are the
    constant 0, whatever the input events. -/
theorem claim10_constant_fields (today : String) (dfs : List (String × List RawRow))
    (res : TransformResult) (h : transform_data today dfs = .ok res) :
    (∀ d ∈ res.daily_metrics, d.items_sold = 0 ∧ d.bounce_rate = 0) ∧
    (∀ p ∈ res.product_metrics, p.checkouts = 0 ∧ p.refund_amount = 0) := by
  unfold transform_data at h
  rcases hf : dfs.find? (fun p => !p.2.isEmpty) with _ | q
  · rw [hf] at h
    injection h with h
    subst h
    constructor
    · intro d hd; cases hd
    · intro p hp; cases hp
  · rw [hf] at h
    obtain ⟨st, hfold, rfl⟩ := transform_ok_unfold _ _ _ h
    constructor
    · intro d hd
      simp only [finalizeState, List.mem_map] at hd
      obtain ⟨q2, _, rfl⟩ := hd
      exact ⟨rfl, rfl⟩
    · intro p hp
      simp only [finalizeState, List.mem_map] at hp
      obtain ⟨q2, _, rfl⟩ := hp
      exact ⟨rfl, rfl⟩

theorem claim10_witness :
    (∀ d ∈ c10Res.daily_metrics, d.items_sold = 0 ∧ d.bounce_rate = 0) ∧
    (∀ p ∈ c10Res.product_metrics, p.checkouts = 0 ∧ p.refund_amount = 0) :=
  claim10_constant_fields "2021-02-01" c10Dfs c10Res rfl

end Etl
